import Mathlib

/-! Layered configuration-value resolver (`development-kit/pkg/utils/env/env_admin.go`).

A shallow embedding of `GetEnvFromAdminDatabaseOrDefault` and of the accessors
`Env.ToString`, `Env.ToBool`, `Env.ToInt`, together with the pieces of the Go
standard library they call (`fmt.Sprintf`, `strings.EqualFold`, `strconv.Atoi`).

Go strings are modelled by Lean strings (valid UTF-8 only); `len` and the byte
loops of `strconv` run over the UTF-8 encoding.  The Go type `int` is 64 bits wide.
-/

namespace Horusec

/-! ## Collaborators -/

/-- Error kinds of `strconv`: `ErrSyntax` and `ErrRange`. -/
inductive NumErr where
  | ErrSyntax
  | ErrRange
  deriving DecidableEq, Repr

/-- The Go type `*strconv.NumError`. -/
structure NumError where
  Func : String
  Num : String
  Err : NumErr
  deriving DecidableEq, Repr

/-- A non-nil Go `error` as it reaches this package: the opaque error of a storage
query, or the `*strconv.NumError` of a failed conversion. -/
inductive GoError where
  | storage (text : String)
  | num (e : NumError)
  deriving DecidableEq, Repr

/-- One call `logger.LogError(msg, err)`; `err = none` is a nil error. -/
structure LogCall where
  msg : String
  err : Option GoError
  deriving DecidableEq, Repr

/-- Modelled from the spec: `logger.LogError` (package `utils/logger`, not part of the
source at hand) is a fire-and-forget sink for which the absence of an error is a no-op.
The result is the list of entries the call adds to the log. -/
def LogError (c : LogCall) : List (String × GoError) :=
  match c.err with
  | none => []
  | some e => [(c.msg, e)]

/-- Entries written to the log by a sequence of `LogError` calls. -/
def logged : List LogCall → List (String × GoError)
  | [] => []
  | c :: cs => LogError c ++ logged cs

/-- The Go type `map[string]string` as an association list. -/
abbrev GoMap := List (String × String)

/-- Go map indexing `m[k]`: the stored value, or the zero value `""` without an entry. -/
def GoMap.index : GoMap → String → String
  | [], _ => ""
  | (k, v) :: rest, key => if k = key then v else GoMap.index rest key

/-- Modelled from the spec: `admin.HorusecAdminConfig` (package `entities/admin`, not part
of the source at hand) is a record that "can be converted to a mapping from lower-cased
setting name to string value"; the record is represented by that mapping, which is what
`ToMap` returns. -/
structure HorusecAdminConfig where
  ToMap : GoMap
  deriving DecidableEq, Repr

/-- Outcome of a Go call that may panic. -/
inductive Outcome (α : Type) where
  | ret (a : α)
  | panic (reason : String)
  deriving DecidableEq, Repr

/-- The dynamic value `response.GetData()` of type `interface{}`: the nil interface, a
non-nil `*admin.HorusecAdminConfig`, a nil `*admin.HorusecAdminConfig` (the value line 23
declares), or a value of another dynamic type (named by its type).  The body of `ToMap`
is not part of the source at hand, so what the method does on the nil receiver, return a
map or panic, is carried with the nil pointer as `toMap`. -/
inductive Data where
  | nil
  | config (c : HorusecAdminConfig)
  | nilConfig (toMap : Outcome GoMap)
  | other (typeName : String)
  deriving DecidableEq, Repr

/-- The storage response returned by `databaseRead.Find`: `GetError()` and `GetData()`. -/
structure Response where
  GetError : Option String
  GetData : Data
  deriving DecidableEq, Repr

/-- What the package reads from its host: the process environment (`os.LookupEnv`) and
the library function `strings.ToLower`, whose Unicode tables are not embedded. -/
structure Host where
  LookupEnv : String → Option String
  ToLower : String → String

/-- Modelled from the spec: `GetEnvOrDefault` (file `env.go` of this package, not part of
the source at hand) reads "the named environment variable; if unset or empty, use
`defaultValue`". -/
def GetEnvOrDefault (h : Host) (env defaultValue : String) : String :=
  match h.LookupEnv env with
  | none => defaultValue
  | some v => if v = "" then defaultValue else v

/-! ## The wrapper `Env` -/

/-- The dynamic value held in `Env.value` (`interface{}`): a string, a boolean or an
`int`. -/
inductive Value where
  | str (s : String)
  | bool (b : Bool)
  | int (n : Int)
  deriving DecidableEq, Repr

/-- The Go type `Env`. -/
structure Env where
  value : Value
  deriving DecidableEq, Repr

/-- The message `fmt.Sprintf("Error on get env (%s) on database", env)`. -/
def getEnvErrorMsg (env : String) : String :=
  "Error on get env (" ++ env ++ ") on database"

/-- The expression `response.GetData().(*admin.HorusecAdminConfig).ToMap()` of line 31:
the type assertion panics unless the dynamic type of the data is
`*admin.HorusecAdminConfig`, and then `ToMap` runs on the pointer, nil or not. -/
def assertConfigToMap : Data → Outcome GoMap
  | .config c => .ret c.ToMap
  | .nilConfig toMap => toMap
  | .nil =>
    .panic "interface conversion: interface {} is nil, not *admin.HorusecAdminConfig"
  | .other t =>
    .panic ("interface conversion: interface {} is " ++ t ++ ", not *admin.HorusecAdminConfig")

/-- The function `GetEnvFromAdminDatabaseOrDefault`, from the storage response on
(`response` is the value of `databaseRead.Find(...)`): the calls made to
`logger.LogError`, and the returned wrapper or the panic. -/
def GetEnvFromAdminDatabaseOrDefault (h : Host) (response : Response)
    (env defaultValue : String) : List LogCall × Outcome Env :=
  let calls : List LogCall :=
    match response.GetError with
    | some err => [⟨getEnvErrorMsg env, some (.storage err)⟩]
    | none => []
  match response.GetData with
  | .nil => (calls, .ret ⟨.str (GetEnvOrDefault h env defaultValue)⟩)
  | data =>
    match assertConfigToMap data with
    | .panic r => (calls, .panic r)
    | .ret m =>
      let value := m.index (h.ToLower env)
      if value = "" then
        (calls, .ret ⟨.str (GetEnvOrDefault h env defaultValue)⟩)
      else
        (calls, .ret ⟨.str value⟩)

/-! ## `fmt.Sprintf("%v", ·)` -/

/-- The decimal digit `d` as a character (`'0' + d`). -/
def digitChar (d : Nat) : Char := Char.ofNat (48 + d)

/-- Decimal digits of `n`, most significant first, in front of `acc`; `fuel` bounds the
number of digits. -/
def formatUintAux : Nat → Nat → List Char → List Char
  | 0, _, acc => acc
  | fuel + 1, n, acc =>
    if n < 10 then digitChar n :: acc
    else formatUintAux fuel (n / 10) (digitChar (n % 10) :: acc)

/-- Base-10 rendering of a natural number (`strconv.FormatUint(n, 10)`). -/
def formatUint (n : Nat) : List Char := formatUintAux (n + 1) n []

/-- Base-10 rendering of an integer (`strconv.FormatInt(n, 10)`): an optional leading
`-`, then the digits of the magnitude. -/
def formatInt (n : Int) : String :=
  if n < 0 then String.mk ('-' :: formatUint n.natAbs) else String.mk (formatUint n.natAbs)

/-- The verb `%v` of `fmt.Sprintf` at a string, a boolean or an `int`. -/
def sprintV : Value → String
  | .str s => s
  | .bool true => "true"
  | .bool false => "false"
  | .int n => formatInt n

/-- The method `Env.ToString`. -/
def Env.ToString (e : Env) : String := sprintV e.value

/-! ## `strings.EqualFold` -/

/-- The function `unicode.SimpleFold` on the case orbits that meet ASCII: the letter
pairs, `K k U+212A` and `S s U+017F`.  Orbits made of non-ASCII runes only are not
embedded (identity); `ToBool` folds against the ASCII literal `"true"`. -/
def SimpleFold (r : Nat) : Nat :=
  if r = 75 then 107            -- K -> k
  else if r = 107 then 8490     -- k -> KELVIN SIGN
  else if r = 8490 then 75      -- KELVIN SIGN -> K
  else if r = 83 then 115       -- S -> s
  else if r = 115 then 383      -- s -> LONG S
  else if r = 383 then 83       -- LONG S -> S
  else if 65 ≤ r ∧ r ≤ 90 then r + 32
  else if 97 ≤ r ∧ r ≤ 122 then r - 32
  else r

/-- The orbit walk of `EqualFold`: `for r != sr && r < tr { r = unicode.SimpleFold(r) }`,
then `r == tr`.  An orbit has at most four runes, which bounds the walk. -/
def foldWalk : Nat → Nat → Nat → Nat → Bool
  | 0, _, r, tr => r == tr
  | fuel + 1, sr, r, tr =>
    if r ≠ sr ∧ r < tr then foldWalk fuel sr (SimpleFold r) tr else r == tr

/-- One step of `EqualFold` on the runes `sr` and `tr`. -/
def foldRune (sr tr : Nat) : Bool :=
  if tr = sr then true
  else
    let lo := min sr tr
    let hi := max sr tr
    if hi < 128 then
      decide (65 ≤ lo ∧ lo ≤ 90 ∧ hi = lo + 32)
    else
      foldWalk 4 lo (SimpleFold lo) hi

/-- The loop of `strings.EqualFold` over the runes of both strings. -/
def equalFoldRunes : List Char → List Char → Bool
  | [], t => t.isEmpty
  | _ :: _, [] => false
  | sr :: s, tr :: t => if foldRune sr.toNat tr.toNat then equalFoldRunes s t else false

/-- The function `strings.EqualFold`. -/
def EqualFold (s t : String) : Bool := equalFoldRunes s.data t.data

/-- The method `Env.ToBool`. -/
def Env.ToBool (e : Env) : Bool :=
  let stringValue := e.ToString
  EqualFold stringValue "true" || decide (stringValue = "1")

/-! ## `strconv.Atoi` -/

/-- UTF-8 encoding of one rune. -/
def utf8Char (c : Char) : List Nat :=
  let n := c.toNat
  if n < 128 then [n]
  else if n < 2048 then [192 + n / 64, 128 + n % 64]
  else if n < 65536 then [224 + n / 4096, 128 + n / 64 % 64, 128 + n % 64]
  else [240 + n / 262144, 128 + n / 4096 % 64, 128 + n / 64 % 64, 128 + n % 64]

/-- Bytes of a list of runes. -/
def utf8Bytes : List Char → List Nat
  | [] => []
  | c :: cs => utf8Char c ++ utf8Bytes cs

/-- The conversion `[]byte(s)`. -/
def bytes (s : String) : List Nat := utf8Bytes s.data

/-- Width of the Go type `int` (`strconv.IntSize`). -/
def intSize : Nat := 64

/-- Largest value of `int`. -/
def maxInt : Int := 2 ^ (intSize - 1) - 1

/-- Smallest value of `int`. -/
def minInt : Int := -(2 ^ (intSize - 1))

/-- Two's-complement wrap-around of `int` and `int64` arithmetic. -/
def wrapInt (x : Int) : Int := (x + 2 ^ 63) % 2 ^ 64 - 2 ^ 63

/-- The helper `lower` of `strconv`: `c | ('x' - 'X')`. -/
def lower (c : Nat) : Nat := c ||| 32

/-- The digit `switch` of `ParseUint`: the digit value of byte `c`, or `none` in the
`default` case (the underscore case needs base 0). -/
def digitOf (c : Nat) : Option Nat :=
  if 48 ≤ c ∧ c ≤ 57 then some (c - 48)
  else if 97 ≤ lower c ∧ lower c ≤ 122 then some (lower c - 97 + 10)
  else none

/-- The loop of `strconv.ParseUint(s, 10, 0)` over the bytes still to read, with `n` the
`uint64` accumulated so far.  The result is the value and the error kind, if any. -/
def parseUintLoop (maxVal : Nat) : List Nat → Nat → Nat × Option NumErr
  | [], n => (n, none)
  | c :: cs, n =>
    match digitOf c with
    | none => (0, some .ErrSyntax)
    | some d =>
      if d ≥ 10 then (0, some .ErrSyntax)
      else if n ≥ (2 ^ 64 - 1) / 10 + 1 then (maxVal, some .ErrRange)
      else
        let n10 := n * 10 % 2 ^ 64
        let n1 := (n10 + d) % 2 ^ 64
        if n1 < n10 ∨ n1 > maxVal then (maxVal, some .ErrRange)
        else parseUintLoop maxVal cs n1

/-- The function `strconv.ParseUint(s, 10, 0)` on the bytes of `s`. -/
def ParseUint (s : List Nat) : Nat × Option NumErr :=
  if s = [] then (0, some .ErrSyntax)
  else parseUintLoop (2 ^ intSize - 1) s 0

/-- The body of `strconv.ParseInt(s, 10, 0)` once the leading sign is picked off:
`neg` tells whether the sign was `-`, `digits` is the rest of `s`. -/
def parseIntSigned (neg : Bool) (digits : List Nat) : Int × Option NumErr :=
  match ParseUint digits with
  | (_, some .ErrSyntax) => (0, some .ErrSyntax)
  | (un, _) =>
    let cutoff : Nat := 2 ^ (intSize - 1)
    if neg = false ∧ un ≥ cutoff then (wrapInt ((cutoff - 1 : Nat) : Int), some .ErrRange)
    else if neg = true ∧ un > cutoff then (wrapInt (-(wrapInt (cutoff : Int))), some .ErrRange)
    else
      let n := wrapInt (un : Int)
      (if neg then wrapInt (-n) else n, none)

/-- The function `strconv.ParseInt(s, 10, 0)` on the bytes of `s`. -/
def ParseInt (s : List Nat) : Int × Option NumErr :=
  match s with
  | [] => (0, some .ErrSyntax)
  | c :: rest => parseIntSigned (decide (c = 45)) (if c = 43 ∨ c = 45 then rest else s)

/-- The digit loop of the fast path of `Atoi`: `ch -= '0'` on a byte, a syntax error when
`ch > 9`, else `n = n*10 + int(ch)`. -/
def atoiFastLoop : List Nat → Int → Option Int
  | [], n => some n
  | ch :: rest, n =>
    let ch0 := (ch + 256 - 48) % 256
    if ch0 > 9 then none
    else atoiFastLoop rest (wrapInt (n * 10 + ch0))

/-- The fast path of `Atoi` once the leading sign is picked off: `neg` tells whether
the first byte of `s` was `-`, `digits` is the rest. -/
def atoiFast (s : String) (neg : Bool) (digits : List Nat) : Int × Option NumError :=
  if digits.length < 1 then (0, some ⟨"Atoi", s, .ErrSyntax⟩)
  else
    match atoiFastLoop digits 0 with
    | none => (0, some ⟨"Atoi", s, .ErrSyntax⟩)
    | some n => (if neg then wrapInt (-n) else n, none)

/-- The function `strconv.Atoi`: the returned `int` and the returned error. -/
def Atoi (s : String) : Int × Option NumError :=
  let b := bytes s
  let sLen := b.length
  if 0 < sLen ∧ sLen < 19 then
    match b with
    | [] => (0, some ⟨"Atoi", s, .ErrSyntax⟩)
    | c :: rest => atoiFast s (decide (c = 45)) (if c = 45 ∨ c = 43 then rest else b)
  else
    match ParseInt b with
    | (i64, some k) => (i64, some ⟨"Atoi", s, k⟩)
    | (i64, none) => (i64, none)

/-- The message `fmt.Sprintf("Error on convert \"%s\" to int", stringValue)`. -/
def convertErrorMsg (stringValue : String) : String :=
  "Error on convert \"" ++ stringValue ++ "\" to int"

/-- The method `Env.ToInt`: the call made to `logger.LogError`, and the returned `int`. -/
def Env.ToInt (e : Env) : List LogCall × Int :=
  let stringValue := e.ToString
  let r := Atoi stringValue
  ([⟨convertErrorMsg stringValue, r.2.map GoError.num⟩], r.1)

/-! ## Decimal numerals, as the specification reads them -/

/-- A rune is one of the ASCII decimal digits `0`..`9`. -/
def isDigitChar (c : Char) : Bool := decide (48 ≤ c.toNat ∧ c.toNat ≤ 57)

/-- The number denoted by a string of decimal digits read after the prefix value `n`. -/
def decVal : List Char → Nat → Nat
  | [], n => n
  | c :: cs, n => decVal cs (n * 10 + (c.toNat - 48))

/-- The sign and the digit part of a numeral: an optional leading `+` or `-`. -/
def splitSign : List Char → Bool × List Char
  | [] => (false, [])
  | c :: cs => if c = '-' then (true, cs) else if c = '+' then (false, cs) else (false, c :: cs)

/-- The integer denoted by `s` when `s` is a valid base-10 integer in the range of `int`:
an optional sign, then one or more decimal digits, with a value from `minInt` to
`maxInt`; `none` for every other string. -/
def decimalInt (s : String) : Option Int :=
  let p := splitSign s.data
  if p.2 ≠ [] ∧ p.2.all isDigitChar then
    let v : Int := if p.1 then -(decVal p.2 0 : Int) else (decVal p.2 0 : Int)
    if minInt ≤ v ∧ v ≤ maxInt then some v else none
  else none

/-- The integer a numeral denotes, whatever its size: the value of its digit part, negated
after a leading `-`. -/
def numeralValue (s : String) : Int :=
  if (splitSign s.data).1 then -(decVal (splitSign s.data).2 0 : Int)
  else (decVal (splitSign s.data).2 0 : Int)

/-! ## Concrete hosts -/

/-- The function `strings.ToLower` on ASCII strings: `A`..`Z` become `a`..`z`. -/
def asciiToLower (s : String) : String := String.mk (s.data.map Char.toLower)

/-- Lookup of a variable in a process environment given as a list of `NAME=value`
pairs. -/
def lookupVar : List (String × String) → String → Option String
  | [], _ => none
  | (k, v) :: rest, name => if k = name then some v else lookupVar rest name

/-- The host whose environment holds exactly the variables `vars`. -/
def hostOf (vars : List (String × String)) : Host := ⟨lookupVar vars, asciiToLower⟩

/-! ## Resolution -/

theorem GoMap.index_eq_empty_of_no_entry (m : GoMap) (key : String)
    (hno : ∀ v, (key, v) ∉ m) : GoMap.index m key = "" := by
  induction m with
  | nil => rfl
  | cons p rest ih =>
    obtain ⟨k, v⟩ := p
    have hk : k ≠ key := by
      intro hk
      exact hno v (by simp [hk])
    have hrest : ∀ w, (key, w) ∉ rest := fun w hw =>
      hno w (List.mem_cons_of_mem _ hw)
    simp [GoMap.index, hk, ih hrest]

theorem GetEnvOrDefault_of_set (h : Host) (env defaultValue v : String)
    (hset : h.LookupEnv env = some v) (hne : v ≠ "") :
    GetEnvOrDefault h env defaultValue = v := by
  simp [GetEnvOrDefault, hset, hne]

theorem GetEnvOrDefault_of_unset (h : Host) (env defaultValue : String)
    (hunset : h.LookupEnv env = none ∨ h.LookupEnv env = some "") :
    GetEnvOrDefault h env defaultValue = defaultValue := by
  rcases hunset with hu | hu <;> simp [GetEnvOrDefault, hu]

theorem resolve_of_nil (h : Host) (err : Option String) (env defaultValue : String) :
    (GetEnvFromAdminDatabaseOrDefault h ⟨err, .nil⟩ env defaultValue).2
      = .ret ⟨.str (GetEnvOrDefault h env defaultValue)⟩ := by
  simp [GetEnvFromAdminDatabaseOrDefault]

theorem resolve_of_entry (h : Host) (err : Option String) (cfg : HorusecAdminConfig)
    (env defaultValue : String) (hne : cfg.ToMap.index (h.ToLower env) ≠ "") :
    (GetEnvFromAdminDatabaseOrDefault h ⟨err, .config cfg⟩ env defaultValue).2
      = .ret ⟨.str (cfg.ToMap.index (h.ToLower env))⟩ := by
  simp [GetEnvFromAdminDatabaseOrDefault, assertConfigToMap, hne]

theorem resolve_of_empty_entry (h : Host) (err : Option String) (cfg : HorusecAdminConfig)
    (env defaultValue : String) (hemp : cfg.ToMap.index (h.ToLower env) = "") :
    (GetEnvFromAdminDatabaseOrDefault h ⟨err, .config cfg⟩ env defaultValue).2
      = .ret ⟨.str (GetEnvOrDefault h env defaultValue)⟩ := by
  simp [GetEnvFromAdminDatabaseOrDefault, assertConfigToMap, hemp]

/-- The value returned, or the panic, as decided by the data of the response alone. -/
theorem resolve_value (h : Host) (err : Option String) (data : Data)
    (env defaultValue : String) :
    (GetEnvFromAdminDatabaseOrDefault h ⟨err, data⟩ env defaultValue).2
      = match data with
        | .nil => .ret ⟨.str (GetEnvOrDefault h env defaultValue)⟩
        | d =>
          match assertConfigToMap d with
          | .panic r => .panic r
          | .ret m =>
            .ret ⟨.str (if m.index (h.ToLower env) = "" then GetEnvOrDefault h env defaultValue
              else m.index (h.ToLower env))⟩ := by
  cases data with
  | nil => simp [GetEnvFromAdminDatabaseOrDefault]
  | other t => simp [GetEnvFromAdminDatabaseOrDefault, assertConfigToMap]
  | config cfg =>
    by_cases hv : cfg.ToMap.index (h.ToLower env) = "" <;>
      simp [GetEnvFromAdminDatabaseOrDefault, assertConfigToMap, hv]
  | nilConfig toMap =>
    cases toMap with
    | panic r => simp [GetEnvFromAdminDatabaseOrDefault, assertConfigToMap]
    | ret m =>
      by_cases hv : m.index (h.ToLower env) = "" <;>
        simp [GetEnvFromAdminDatabaseOrDefault, assertConfigToMap, hv]

/-- The calls made to the logger, as decided by the error of the response alone. -/
theorem resolve_calls (h : Host) (err : Option String) (data : Data)
    (env defaultValue : String) :
    (GetEnvFromAdminDatabaseOrDefault h ⟨err, data⟩ env defaultValue).1
      = match err with
        | some text => [⟨getEnvErrorMsg env, some (.storage text)⟩]
        | none => [] := by
  cases data with
  | nil => cases err <;> simp [GetEnvFromAdminDatabaseOrDefault]
  | other t => cases err <;> simp [GetEnvFromAdminDatabaseOrDefault, assertConfigToMap]
  | config cfg =>
    by_cases hv : cfg.ToMap.index (h.ToLower env) = "" <;>
      cases err <;> simp [GetEnvFromAdminDatabaseOrDefault, assertConfigToMap, hv]
  | nilConfig toMap =>
    cases toMap with
    | panic r => cases err <;> simp [GetEnvFromAdminDatabaseOrDefault, assertConfigToMap]
    | ret m =>
      by_cases hv : m.index (h.ToLower env) = "" <;>
        cases err <;> simp [GetEnvFromAdminDatabaseOrDefault, assertConfigToMap, hv]

/-- C1 (as stated, refuted): a response that carries an error together with a record
holding `log_level = "debug"` resolves `LOG_LEVEL` to `"debug"`, not to the
environment-or-default value `"info"`. -/
theorem error_with_record_not_fallback :
    (⟨some "connection refused", .config ⟨[("log_level", "debug")]⟩⟩ : Response).GetError
        ≠ none ∧
    (GetEnvFromAdminDatabaseOrDefault (hostOf [])
        ⟨some "connection refused", .config ⟨[("log_level", "debug")]⟩⟩ "LOG_LEVEL" "info").2
      = .ret ⟨.str "debug"⟩ ∧
    (GetEnvFromAdminDatabaseOrDefault (hostOf [])
        ⟨some "connection refused", .config ⟨[("log_level", "debug")]⟩⟩ "LOG_LEVEL" "info").2
      ≠ .ret ⟨.str (GetEnvOrDefault (hostOf []) "LOG_LEVEL" "info")⟩ := by
  decide

/-- C1 (amended): when the administrative record is absent (`GetData` is nil), whether or
not the query reports an error, the setting resolves to the environment-or-default value:
the value of the environment variable if it is set and non-empty, else the default. -/
theorem absent_record_resolves_to_env_or_default (h : Host) (err : Option String)
    (env defaultValue : String) :
    (GetEnvFromAdminDatabaseOrDefault h ⟨err, .nil⟩ env defaultValue).2
      = .ret ⟨.str (GetEnvOrDefault h env defaultValue)⟩ ∧
    (∀ v, h.LookupEnv env = some v → v ≠ "" → GetEnvOrDefault h env defaultValue = v) ∧
    (h.LookupEnv env = none ∨ h.LookupEnv env = some "" →
      GetEnvOrDefault h env defaultValue = defaultValue) :=
  ⟨resolve_of_nil h err env defaultValue,
   fun v hv hne => GetEnvOrDefault_of_set h env defaultValue v hv hne,
   fun hu => GetEnvOrDefault_of_unset h env defaultValue hu⟩

/-- C1 (amended), at a failed query without data: with `TIMEOUT=30` set the result is
`"30"`, and a variable that is unset resolves to the default. -/
theorem absent_record_resolves_to_env_or_default_witness :
    (GetEnvFromAdminDatabaseOrDefault (hostOf [("TIMEOUT", "30")])
        ⟨some "connection refused", .nil⟩ "TIMEOUT" "10").2 = .ret ⟨.str "30"⟩ ∧
    GetEnvOrDefault (hostOf [("TIMEOUT", "30")]) "TIMEOUT" "10" = "30" ∧
    GetEnvOrDefault (hostOf [("TIMEOUT", "30")]) "LOG_LEVEL" "info" = "info" :=
  ⟨(absent_record_resolves_to_env_or_default (hostOf [("TIMEOUT", "30")])
      (some "connection refused") "TIMEOUT" "10").1.trans (by decide),
   (absent_record_resolves_to_env_or_default (hostOf [("TIMEOUT", "30")])
      (some "connection refused") "TIMEOUT" "10").2.1 "30" (by decide) (by decide),
   (absent_record_resolves_to_env_or_default (hostOf [("TIMEOUT", "30")])
      none "LOG_LEVEL" "info").2.2 (Or.inl (by decide))⟩

/-- C2: when the record's map holds a non-empty value `v` under the lower-cased setting
name, the resolved wrapper holds `v` and `ToString` returns `v`, for every environment,
default and error state of the response. -/
theorem record_value_wins (h : Host) (err : Option String) (cfg : HorusecAdminConfig)
    (env defaultValue v : String)
    (hv : cfg.ToMap.index (h.ToLower env) = v) (hne : v ≠ "") :
    (GetEnvFromAdminDatabaseOrDefault h ⟨err, .config cfg⟩ env defaultValue).2
      = .ret ⟨.str v⟩ ∧
    Env.ToString ⟨.str v⟩ = v := by
  subst hv
  exact ⟨resolve_of_entry h err cfg env defaultValue hne, rfl⟩

/-- C2 at the record `log_level = "debug"` with `LOG_LEVEL=warn` in the environment: the
result is `"debug"`. -/
theorem record_value_wins_witness :
    (GetEnvFromAdminDatabaseOrDefault (hostOf [("LOG_LEVEL", "warn")])
        ⟨none, .config ⟨[("log_level", "debug")]⟩⟩ "LOG_LEVEL" "info").2
      = .ret ⟨.str "debug"⟩ ∧
    Env.ToString ⟨.str "debug"⟩ = "debug" :=
  record_value_wins (hostOf [("LOG_LEVEL", "warn")]) none ⟨[("log_level", "debug")]⟩
    "LOG_LEVEL" "info" "debug" (by decide) (by decide)

/-- C3: when a record is present and its map has no entry for the lower-cased setting
name, or maps it to the empty string, the result is exactly the environment-or-default
value for that name and default. -/
theorem empty_record_value_falls_back (h : Host) (err : Option String)
    (cfg : HorusecAdminConfig) (env defaultValue : String)
    (hemp : (∀ v, (h.ToLower env, v) ∉ cfg.ToMap) ∨ cfg.ToMap.index (h.ToLower env) = "") :
    (GetEnvFromAdminDatabaseOrDefault h ⟨err, .config cfg⟩ env defaultValue).2
      = .ret ⟨.str (GetEnvOrDefault h env defaultValue)⟩ := by
  apply resolve_of_empty_entry
  rcases hemp with hno | hemp
  · exact GoMap.index_eq_empty_of_no_entry _ _ hno
  · exact hemp

/-- C3 at the record `timeout = ""` with `TIMEOUT=30` in the environment: the result is
`"30"`. -/
theorem empty_record_value_falls_back_witness :
    (GetEnvFromAdminDatabaseOrDefault (hostOf [("TIMEOUT", "30")])
        ⟨none, .config ⟨[("timeout", "")]⟩⟩ "TIMEOUT" "10").2 = .ret ⟨.str "30"⟩ :=
  (empty_record_value_falls_back (hostOf [("TIMEOUT", "30")]) none ⟨[("timeout", "")]⟩
    "TIMEOUT" "10" (Or.inr (by decide))).trans (by decide)

/-- C4: two setting names with the same lower-cased form both resolve to the non-empty
value `v` that the record's map holds under that lower-cased key. -/
theorem lookup_case_insensitive (h : Host) (err : Option String) (cfg : HorusecAdminConfig)
    (n1 n2 d1 d2 v : String) (hsame : h.ToLower n1 = h.ToLower n2)
    (hv : cfg.ToMap.index (h.ToLower n1) = v) (hne : v ≠ "") :
    (GetEnvFromAdminDatabaseOrDefault h ⟨err, .config cfg⟩ n1 d1).2 = .ret ⟨.str v⟩ ∧
    (GetEnvFromAdminDatabaseOrDefault h ⟨err, .config cfg⟩ n2 d2).2 = .ret ⟨.str v⟩ := by
  subst hv
  refine ⟨resolve_of_entry h err cfg n1 d1 hne, ?_⟩
  rw [hsame] at hne ⊢
  exact resolve_of_entry h err cfg n2 d2 hne

/-- C4 at the names `FOO_BAR` and `foo_bar` against the stored key `foo_bar`. -/
theorem lookup_case_insensitive_witness :
    (GetEnvFromAdminDatabaseOrDefault (hostOf []) ⟨none, .config ⟨[("foo_bar", "x")]⟩⟩
        "FOO_BAR" "a").2 = .ret ⟨.str "x"⟩ ∧
    (GetEnvFromAdminDatabaseOrDefault (hostOf []) ⟨none, .config ⟨[("foo_bar", "x")]⟩⟩
        "foo_bar" "b").2 = .ret ⟨.str "x"⟩ :=
  lookup_case_insensitive (hostOf []) none ⟨[("foo_bar", "x")]⟩ "FOO_BAR" "foo_bar" "a" "b"
    "x" (by decide) (by decide) (by decide)

/-! ## Totality of the resolution -/

/-- C8 (as stated, refuted): on a response whose data has a dynamic type other than
`*admin.HorusecAdminConfig` the type assertion of line 31 panics, so no wrapper is
returned. -/
theorem other_data_panics :
    (GetEnvFromAdminDatabaseOrDefault (hostOf []) ⟨none, .other "**admin.HorusecAdminConfig"⟩
        "LOG_LEVEL" "info").2
      = .panic ("interface conversion: interface {} is **admin.HorusecAdminConfig, " ++
          "not *admin.HorusecAdminConfig") ∧
    ¬ ∃ e, (GetEnvFromAdminDatabaseOrDefault (hostOf [])
        ⟨none, .other "**admin.HorusecAdminConfig"⟩ "LOG_LEVEL" "info").2 = .ret e := by
  refine ⟨by decide, ?_⟩
  rintro ⟨e, he⟩
  simp [GetEnvFromAdminDatabaseOrDefault, assertConfigToMap] at he

/-- C8 (amended): for every storage response whose data is nil, a `HorusecAdminConfig`
record, or a nil record pointer on which `ToMap` returns a map, with or without an error,
and for every setting name and default, `GetEnvFromAdminDatabaseOrDefault` returns a
wrapper: the environment-or-default value with nil data, else the map value under the
lower-cased name when it is non-empty and the environment-or-default value when it is
empty.  A panic of `ToMap` on a nil record pointer reaches the caller, and data of any
other dynamic type panics at the type assertion.  An error of the response is passed to
the logger and changes none of this. -/
theorem resolution_outcome_by_data (h : Host) (err : Option String)
    (env defaultValue : String) :
    (GetEnvFromAdminDatabaseOrDefault h ⟨err, .nil⟩ env defaultValue).2
      = .ret ⟨.str (GetEnvOrDefault h env defaultValue)⟩ ∧
    (∀ cfg : HorusecAdminConfig,
      (GetEnvFromAdminDatabaseOrDefault h ⟨err, .config cfg⟩ env defaultValue).2
        = .ret ⟨.str (if cfg.ToMap.index (h.ToLower env) = ""
            then GetEnvOrDefault h env defaultValue
            else cfg.ToMap.index (h.ToLower env))⟩) ∧
    (∀ m : GoMap,
      (GetEnvFromAdminDatabaseOrDefault h ⟨err, .nilConfig (.ret m)⟩ env defaultValue).2
        = .ret ⟨.str (if m.index (h.ToLower env) = ""
            then GetEnvOrDefault h env defaultValue
            else m.index (h.ToLower env))⟩) ∧
    (∀ r : String,
      (GetEnvFromAdminDatabaseOrDefault h ⟨err, .nilConfig (.panic r)⟩ env defaultValue).2
        = .panic r) ∧
    (∀ t : String,
      (GetEnvFromAdminDatabaseOrDefault h ⟨err, .other t⟩ env defaultValue).2
        = .panic ("interface conversion: interface {} is " ++ t ++
            ", not *admin.HorusecAdminConfig")) ∧
    (∀ data text,
      (GetEnvFromAdminDatabaseOrDefault h ⟨some text, data⟩ env defaultValue).1
        = [⟨getEnvErrorMsg env, some (.storage text)⟩]) := by
  refine ⟨resolve_of_nil h err env defaultValue, ?_, ?_, ?_, ?_, ?_⟩
  · intro cfg
    rw [resolve_value]
    rfl
  · intro m
    rw [resolve_value]
    rfl
  · intro r
    rw [resolve_value]
    rfl
  · intro t
    rw [resolve_value]
    rfl
  · intro data text
    rw [resolve_calls]

/-! ## `ToBool` -/

theorem char_eq_of_toNat_eq {c d : Char} (h : c.toNat = d.toNat) : c = d := by
  apply Char.eq_of_val_eq
  apply UInt32.eq_of_val_eq
  exact Fin.eq_of_val_eq h

theorem foldRune_letter (L n : Nat) (hL : 97 ≤ L ∧ L ≤ 122) (hk : L ≠ 107)
    (hs : L ≠ 115) : foldRune n L = true ↔ n = L ∨ n = L - 32 := by
  unfold foldRune
  by_cases h1 : L = n
  · simp [h1]
  · simp only [h1, if_false]
    by_cases h2 : n < 128
    · have hmax : max n L < 128 := by omega
      simp only [hmax, if_true, decide_eq_true_eq]
      omega
    · have hmin : min n L = L := by omega
      have hmx : max n L = n := by omega
      simp only [hmin, hmx]
      clear hmin hmx
      have hS : SimpleFold L = L - 32 := by
        unfold SimpleFold
        simp only [hk, hs, if_false]
        split_ifs <;> omega
      have hS2 : SimpleFold (L - 32) = L := by
        unfold SimpleFold
        split_ifs <;> omega
      have hne : L - 32 ≠ L := by omega
      have hlt : L - 32 < n := by omega
      simp only [foldWalk, hS]
      rw [if_neg h2, if_pos ⟨hne, hlt⟩, hS2, if_neg (fun h => h.1 rfl)]
      simp only [beq_iff_eq]
      omega

theorem equalFoldRunes_true (cs : List Char) :
    equalFoldRunes cs ['t', 'r', 'u', 'e'] = true ↔
      ∃ a b c d, cs = [a, b, c, d] ∧ (a = 't' ∨ a = 'T') ∧ (b = 'r' ∨ b = 'R') ∧
        (c = 'u' ∨ c = 'U') ∧ (d = 'e' ∨ d = 'E') := by
  have key : ∀ (x : Char) (L : Nat) (lo up : Char), 97 ≤ L ∧ L ≤ 122 → L ≠ 107 → L ≠ 115 →
      lo.toNat = L → up.toNat = L - 32 →
      (foldRune x.toNat L = true ↔ x = lo ∨ x = up) := by
    intro x L lo up hL hk hs hlo hup
    rw [foldRune_letter L x.toNat hL hk hs]
    constructor
    · rintro (h | h)
      · exact Or.inl (char_eq_of_toNat_eq (h.trans hlo.symm))
      · exact Or.inr (char_eq_of_toNat_eq (h.trans hup.symm))
    · rintro (h | h)
      · exact Or.inl (h ▸ hlo)
      · exact Or.inr (h ▸ hup)
  have kt := fun x => key x 116 't' 'T' (by omega) (by omega) (by omega) rfl rfl
  have kr := fun x => key x 114 'r' 'R' (by omega) (by omega) (by omega) rfl rfl
  have ku := fun x => key x 117 'u' 'U' (by omega) (by omega) (by omega) rfl rfl
  have ke := fun x => key x 101 'e' 'E' (by omega) (by omega) (by omega) rfl rfl
  have nt : ('t' : Char).toNat = 116 := rfl
  have nr : ('r' : Char).toNat = 114 := rfl
  have nu : ('u' : Char).toNat = 117 := rfl
  have ne : ('e' : Char).toNat = 101 := rfl
  constructor
  · intro h
    match cs, h with
    | [a, b, c, d], h =>
      simp only [equalFoldRunes, nt, nr, nu, ne] at h
      by_cases ha : foldRune a.toNat 116 = true
      · by_cases hb : foldRune b.toNat 114 = true
        · by_cases hc : foldRune c.toNat 117 = true
          · by_cases hd : foldRune d.toNat 101 = true
            · exact ⟨a, b, c, d, rfl, (kt a).1 ha, (kr b).1 hb, (ku c).1 hc, (ke d).1 hd⟩
            · simp [ha, hb, hc, hd] at h
          · simp [ha, hb, hc] at h
        · simp [ha, hb] at h
      · simp [ha] at h
    | [], h => simp [equalFoldRunes] at h
    | [_], h => simp [equalFoldRunes] at h
    | [_, _], h => simp [equalFoldRunes] at h
    | [_, _, _], h => simp [equalFoldRunes] at h
    | _ :: _ :: _ :: _ :: _ :: _, h => simp [equalFoldRunes] at h
  · rintro ⟨a, b, c, d, rfl, ha, hb, hc, hd⟩
    simp only [equalFoldRunes, nt, nr, nu, ne]
    simp [(kt a).2 ha, (kr b).2 hb, (ku c).2 hc, (ke d).2 hd]

/-- C5: `ToBool` returns true exactly when the string form is `true` in any mix of upper
and lower case (four runes, each the letter of `t`, `r`, `u`, `e` in either case) or is
exactly `1`; the string forms `True1`, `yes`, ` true`, `01` and the empty string give
false. -/
theorem ToBool_true_iff :
    (∀ e : Env, e.ToBool = true ↔
      ((∃ a b c d, e.ToString = String.mk [a, b, c, d] ∧ (a = 't' ∨ a = 'T') ∧
          (b = 'r' ∨ b = 'R') ∧ (c = 'u' ∨ c = 'U') ∧ (d = 'e' ∨ d = 'E')) ∨
        e.ToString = "1")) ∧
    Env.ToBool ⟨.str "True1"⟩ = false ∧ Env.ToBool ⟨.str "yes"⟩ = false ∧
    Env.ToBool ⟨.str " true"⟩ = false ∧ Env.ToBool ⟨.str "01"⟩ = false ∧
    Env.ToBool ⟨.str ""⟩ = false ∧
    Env.ToBool ⟨.str "tRuE"⟩ = true ∧ Env.ToBool ⟨.str "1"⟩ = true := by
  refine ⟨?_, by decide, by decide, by decide, by decide, by decide, by decide, by decide⟩
  intro e
  have hdata : ("true" : String).data = ['t', 'r', 'u', 'e'] := rfl
  simp only [Env.ToBool, EqualFold, hdata, Bool.or_eq_true, decide_eq_true_eq,
    equalFoldRunes_true]
  constructor
  · rintro (⟨a, b, c, d, hcs, h⟩ | h)
    · exact Or.inl ⟨a, b, c, d, by rw [← hcs], h⟩
    · exact Or.inr h
  · rintro (⟨a, b, c, d, hcs, h⟩ | h)
    · exact Or.inl ⟨a, b, c, d, by rw [hcs], h⟩
    · exact Or.inr h

/-! ## Decimal rendering -/

theorem digitChar_toNat (d : Nat) (h : d < 10) : (digitChar d).toNat = 48 + d := by
  interval_cases d <;> rfl

theorem isDigitChar_digitChar (d : Nat) (h : d < 10) : isDigitChar (digitChar d) = true := by
  simp only [isDigitChar, digitChar_toNat d h, decide_eq_true_eq]
  omega

theorem formatUintAux_all_digits (fuel n : Nat) (acc : List Char)
    (hacc : acc.all isDigitChar = true) :
    (formatUintAux fuel n acc).all isDigitChar = true := by
  induction fuel generalizing n acc with
  | zero => simpa [formatUintAux] using hacc
  | succ fuel ih =>
    unfold formatUintAux
    split_ifs with hn
    · simp only [List.all_cons, isDigitChar_digitChar n hn, hacc, Bool.and_self]
    · apply ih
      simp only [List.all_cons, isDigitChar_digitChar (n % 10) (Nat.mod_lt _ (by omega)),
        hacc, Bool.and_self]

theorem formatUintAux_ne_nil (fuel n : Nat) (acc : List Char) (hf : 0 < fuel ∨ acc ≠ []) :
    formatUintAux fuel n acc ≠ [] := by
  induction fuel generalizing n acc with
  | zero =>
    rcases hf with hf | hf
    · omega
    · simpa [formatUintAux] using hf
  | succ fuel ih =>
    unfold formatUintAux
    split_ifs with hn
    · simp
    · exact ih _ _ (Or.inr (by simp))

theorem decVal_formatUintAux (fuel n : Nat) (acc : List Char) (hf : n < fuel) :
    decVal (formatUintAux fuel n acc) 0 = decVal acc n := by
  induction fuel generalizing n acc with
  | zero => omega
  | succ fuel ih =>
    unfold formatUintAux
    split_ifs with hn
    · simp [decVal, digitChar_toNat n hn]
    · rw [ih (n / 10) _ (by omega)]
      have hmod : n % 10 < 10 := Nat.mod_lt _ (by omega)
      simp only [decVal, digitChar_toNat (n % 10) hmod]
      congr 1
      omega

theorem formatUint_all_digits (n : Nat) : (formatUint n).all isDigitChar = true :=
  formatUintAux_all_digits _ _ _ rfl

theorem formatUint_ne_nil (n : Nat) : formatUint n ≠ [] :=
  formatUintAux_ne_nil _ _ _ (Or.inl (Nat.succ_pos n))

theorem decVal_formatUint (n : Nat) : decVal (formatUint n) 0 = n := by
  unfold formatUint
  rw [decVal_formatUintAux (n + 1) n [] (Nat.lt_succ_self n)]
  rfl

/-- C10: `ToString` is total and renders the wrapped value: a string unchanged, a boolean
as `true` or `false`, an integer in base 10 (a `-` for a negative number, then the decimal
digits of its magnitude).  When the record is absent and the environment variable is
unset, `ToString` of the resolved value is the supplied default. -/
theorem ToString_renders_value :
    (∀ s : String, Env.ToString ⟨.str s⟩ = s) ∧
    Env.ToString ⟨.bool true⟩ = "true" ∧ Env.ToString ⟨.bool false⟩ = "false" ∧
    (∀ n : Int,
      (Env.ToString ⟨.int n⟩).data
          = (if n < 0 then ['-'] else []) ++ formatUint n.natAbs ∧
        (formatUint n.natAbs).all isDigitChar = true ∧ formatUint n.natAbs ≠ [] ∧
        decVal (formatUint n.natAbs) 0 = n.natAbs) ∧
    (∀ (h : Host) (err : Option String) (env defaultValue : String),
      h.LookupEnv env = none →
        ∃ e, (GetEnvFromAdminDatabaseOrDefault h ⟨err, .nil⟩ env defaultValue).2 = .ret e ∧
          e.ToString = defaultValue) := by
  refine ⟨fun _ => rfl, rfl, rfl, ?_, ?_⟩
  · intro n
    refine ⟨?_, formatUint_all_digits _, formatUint_ne_nil _, decVal_formatUint _⟩
    simp only [Env.ToString, sprintV, formatInt]
    split_ifs <;> simp
  · intro h err env defaultValue hunset
    refine ⟨_, resolve_of_nil h err env defaultValue, ?_⟩
    simp [Env.ToString, sprintV, GetEnvOrDefault, hunset]

/-- C10 at an absent record, `LOG_LEVEL` unset and the default `info`: `ToString` of the
resolved value is `info`. -/
theorem ToString_renders_value_witness :
    ∃ e, (GetEnvFromAdminDatabaseOrDefault (hostOf []) ⟨none, .nil⟩ "LOG_LEVEL" "info").2
        = .ret e ∧ e.ToString = "info" :=
  ToString_renders_value.2.2.2.2 (hostOf []) none "LOG_LEVEL" "info" (by decide)

/-! ## UTF-8 bytes of digits and signs -/

theorem char_toNat_lt (c : Char) : c.toNat < 1114112 := by
  have h := c.valid
  simp only [UInt32.isValidChar, Nat.isValidChar] at h
  have : c.toNat = c.val.toNat := rfl
  omega

theorem utf8Char_ascii (c : Char) (h : c.toNat < 128) : utf8Char c = [c.toNat] := by
  simp [utf8Char, h]

/-- The first byte of a rune outside ASCII is a lead byte from 192 to 247. -/
theorem utf8Char_non_ascii (c : Char) (h : ¬ c.toNat < 128) :
    ∃ b tl, utf8Char c = b :: tl ∧ 192 ≤ b ∧ b < 248 := by
  have hlt := char_toNat_lt c
  unfold utf8Char
  simp only [h, if_false]
  split_ifs with h1 h2
  · exact ⟨_, _, rfl, by omega, by omega⟩
  · exact ⟨_, _, rfl, by omega, by omega⟩
  · exact ⟨_, _, rfl, by omega, by omega⟩

theorem utf8Bytes_digit (c : Char) (cs : List Char) (h : isDigitChar c = true) :
    utf8Bytes (c :: cs) = c.toNat :: utf8Bytes cs := by
  simp only [isDigitChar, decide_eq_true_eq] at h
  simp [utf8Bytes, utf8Char_ascii c (by omega)]

/-- The first byte of a rune that is not a decimal digit is not a digit byte, and is
below 256. -/
theorem utf8Bytes_non_digit (c : Char) (cs : List Char) (h : isDigitChar c = false) :
    ∃ b tl, utf8Bytes (c :: cs) = b :: tl ∧ ¬ (48 ≤ b ∧ b ≤ 57) ∧ b < 256 ∧
      (b = c.toNat ∨ 192 ≤ b) := by
  simp only [isDigitChar, decide_eq_false_iff_not] at h
  by_cases hc : c.toNat < 128
  · exact ⟨c.toNat, utf8Bytes cs, by simp [utf8Bytes, utf8Char_ascii c hc], h, by omega,
      Or.inl rfl⟩
  · obtain ⟨b, tl, hb, h1, h2⟩ := utf8Char_non_ascii c hc
    exact ⟨b, tl ++ utf8Bytes cs, by simp [utf8Bytes, hb], by omega, by omega, Or.inr h1⟩

theorem utf8Bytes_length_of_digits (cs : List Char) (h : cs.all isDigitChar = true) :
    (utf8Bytes cs).length = cs.length := by
  induction cs with
  | nil => rfl
  | cons c cs ih =>
    simp only [List.all_cons, Bool.and_eq_true] at h
    rw [utf8Bytes_digit c cs h.1]
    simp [ih h.2]

/-! ## The loop of `ParseUint` -/

theorem decVal_ge (cs : List Char) (n : Nat) : n ≤ decVal cs n := by
  induction cs generalizing n with
  | nil => exact Nat.le_refl n
  | cons c cs ih =>
    have h := ih (n * 10 + (c.toNat - 48))
    simp only [decVal]
    omega

theorem digitOf_digit (b : Nat) (h : 48 ≤ b ∧ b ≤ 57) : digitOf b = some (b - 48) := by
  simp [digitOf, h]

theorem digitOf_non_digit (b : Nat) (h : ¬ (48 ≤ b ∧ b ≤ 57)) :
    digitOf b = none ∨ ∃ d, digitOf b = some d ∧ 10 ≤ d := by
  unfold digitOf
  simp only [h, if_false]
  split_ifs
  · exact Or.inr ⟨_, rfl, by omega⟩
  · exact Or.inl rfl

theorem parseUintLoop_non_digit (maxVal b : Nat) (tl : List Nat) (n : Nat)
    (h : ¬ (48 ≤ b ∧ b ≤ 57)) :
    parseUintLoop maxVal (b :: tl) n = (0, some .ErrSyntax) := by
  rcases digitOf_non_digit b h with hd | ⟨d, hd, hge⟩
  · simp [parseUintLoop, hd]
  · simp [parseUintLoop, hd, hge]

/-- On a string of digits whose value fits `uint64`, the loop returns that value. -/
theorem parseUintLoop_digits (cs : List Char) (n : Nat) (hall : cs.all isDigitChar = true)
    (hv : decVal cs n ≤ 18446744073709551615) :
    parseUintLoop 18446744073709551615 (utf8Bytes cs) n = (decVal cs n, none) := by
  induction cs generalizing n with
  | nil => rfl
  | cons c cs ih =>
    simp only [List.all_cons, Bool.and_eq_true] at hall
    have hc := hall.1
    simp only [isDigitChar, decide_eq_true_eq] at hc
    have hge := decVal_ge cs (n * 10 + (c.toNat - 48))
    simp only [decVal] at hv
    rw [utf8Bytes_digit c cs hall.1]
    simp only [parseUintLoop, digitOf_digit c.toNat hc]
    have h1 : ¬ (c.toNat - 48 ≥ 10) := by omega
    have h2 : ¬ (n ≥ (2 ^ 64 - 1) / 10 + 1) := by norm_num; omega
    have h3 : (n * 10 % 2 ^ 64 + (c.toNat - 48)) % 2 ^ 64 = n * 10 + (c.toNat - 48) := by
      norm_num; omega
    have h4 : n * 10 % 2 ^ 64 = n * 10 := by norm_num; omega
    rw [if_neg h1, if_neg h2]
    simp only [h3]
    rw [if_neg (by rw [h4]; omega)]
    exact ih _ hall.2 hv

/-- When the loop ends without an error, the string is made of digits and the value
returned is the number they denote, which fits `uint64`. -/
theorem parseUintLoop_ok (cs : List Char) (n : Nat) (hn : n ≤ 18446744073709551615)
    (hok : (parseUintLoop 18446744073709551615 (utf8Bytes cs) n).2 = none) :
    cs.all isDigitChar = true ∧ decVal cs n ≤ 18446744073709551615 := by
  induction cs generalizing n with
  | nil => exact ⟨rfl, hn⟩
  | cons c cs ih =>
    cases hd : isDigitChar c with
    | false =>
      obtain ⟨b, tl, hb, hnd, _, _⟩ := utf8Bytes_non_digit c cs hd
      rw [hb, parseUintLoop_non_digit _ b tl n hnd] at hok
      simp at hok
    | true =>
      have hc := hd
      simp only [isDigitChar, decide_eq_true_eq] at hc
      rw [utf8Bytes_digit c cs hd] at hok
      simp only [parseUintLoop, digitOf_digit c.toNat hc] at hok
      have h1 : ¬ (c.toNat - 48 ≥ 10) := by omega
      rw [if_neg h1] at hok
      by_cases h2 : n ≥ (2 ^ 64 - 1) / 10 + 1
      · rw [if_pos h2] at hok
        simp at hok
      · rw [if_neg h2] at hok
        by_cases h3 : (n * 10 % 2 ^ 64 + (c.toNat - 48)) % 2 ^ 64 < n * 10 % 2 ^ 64 ∨
            (n * 10 % 2 ^ 64 + (c.toNat - 48)) % 2 ^ 64 > 18446744073709551615
        · simp only [h3, if_true] at hok
          simp at hok
        · simp only [h3, if_false] at hok
          have h4 : (n * 10 % 2 ^ 64 + (c.toNat - 48)) % 2 ^ 64 = n * 10 + (c.toNat - 48) := by
            norm_num at h2 h3 ⊢
            omega
          rw [h4] at hok
          have hn1 : n * 10 + (c.toNat - 48) ≤ 18446744073709551615 := by
            norm_num at h2 h3
            omega
          have := ih _ hn1 hok
          exact ⟨by simp [List.all_cons, hd, this.1], by simpa [decVal] using this.2⟩

/-- The value returned with an error: 0 with a syntax error, `maxVal` with a range
error. -/
theorem parseUintLoop_err (maxVal : Nat) (bs : List Nat) (n : Nat) :
    ((parseUintLoop maxVal bs n).2 = some .ErrSyntax → (parseUintLoop maxVal bs n).1 = 0) ∧
    ((parseUintLoop maxVal bs n).2 = some .ErrRange →
      (parseUintLoop maxVal bs n).1 = maxVal) := by
  induction bs generalizing n with
  | nil => simp [parseUintLoop]
  | cons b bs ih =>
    unfold parseUintLoop
    split
    · simp
    · split_ifs
      · simp
      · simp
      · dsimp only
        split_ifs
        · simp
        · exact ih _


/-! ## `ParseInt` and the fast path of `Atoi` -/

theorem utf8Bytes_eq_nil (cs : List Char) (h : utf8Bytes cs = []) : cs = [] := by
  cases cs with
  | nil => rfl
  | cons c cs =>
    cases hd : isDigitChar c with
    | true => rw [utf8Bytes_digit c cs hd] at h; simp at h
    | false =>
      obtain ⟨b, tl, hb, _⟩ := utf8Bytes_non_digit c cs hd
      rw [hb] at h
      simp at h

theorem ParseUint_digits (ds : List Char) (hne : ds ≠ []) (hall : ds.all isDigitChar = true)
    (hv : decVal ds 0 ≤ 18446744073709551615) :
    ParseUint (utf8Bytes ds) = (decVal ds 0, none) := by
  have hb : utf8Bytes ds ≠ [] := fun h => hne (utf8Bytes_eq_nil ds h)
  have hM : 2 ^ intSize - 1 = 18446744073709551615 := by norm_num [intSize]
  simp only [ParseUint, hb, if_false, hM]
  exact parseUintLoop_digits ds 0 hall hv

theorem ParseUint_ok (ds : List Char) (hok : (ParseUint (utf8Bytes ds)).2 = none) :
    ds ≠ [] ∧ ds.all isDigitChar = true ∧ decVal ds 0 ≤ 18446744073709551615 := by
  have hM : 2 ^ intSize - 1 = 18446744073709551615 := by norm_num [intSize]
  by_cases hb : utf8Bytes ds = []
  · simp [ParseUint, hb] at hok
  · simp only [ParseUint, hb, if_false, hM] at hok
    have := parseUintLoop_ok ds 0 (by omega) hok
    refine ⟨?_, this⟩
    rintro rfl
    exact hb rfl

theorem ParseUint_err (bs : List Nat) :
    ((ParseUint bs).2 = some .ErrSyntax → (ParseUint bs).1 = 0) ∧
    ((ParseUint bs).2 = some .ErrRange → (ParseUint bs).1 = 18446744073709551615) := by
  have hM : 2 ^ intSize - 1 = 18446744073709551615 := by norm_num [intSize]
  unfold ParseUint
  split_ifs
  · simp
  · rw [hM]
    exact parseUintLoop_err _ _ _

theorem wrapInt_of_range (x : Int) (hlo : -9223372036854775808 ≤ x)
    (hhi : x ≤ 9223372036854775807) : wrapInt x = x := by
  unfold wrapInt
  omega

/-- A string of digits in the range of `int` is parsed to the integer it denotes. -/
theorem parseIntSigned_digits (neg : Bool) (ds : List Char) (hne : ds ≠ [])
    (hall : ds.all isDigitChar = true)
    (hlo : minInt ≤ (if neg then -(decVal ds 0 : Int) else (decVal ds 0 : Int)))
    (hhi : (if neg then -(decVal ds 0 : Int) else (decVal ds 0 : Int)) ≤ maxInt) :
    parseIntSigned neg (utf8Bytes ds)
      = (if neg then -(decVal ds 0 : Int) else (decVal ds 0 : Int), none) := by
  have hmin : minInt = -9223372036854775808 := by norm_num [minInt, intSize]
  have hmax : maxInt = 9223372036854775807 := by norm_num [maxInt, intSize]
  have hcut : 2 ^ (intSize - 1) = 9223372036854775808 := by norm_num [intSize]
  rw [hmin] at hlo
  rw [hmax] at hhi
  have hv : decVal ds 0 ≤ 18446744073709551615 := by
    cases neg <;> simp at hlo hhi <;> omega
  unfold parseIntSigned
  rw [ParseUint_digits ds hne hall hv]
  simp only [hcut]
  cases neg with
  | false =>
    simp only [Bool.false_eq_true, if_false] at hlo hhi
    rw [if_neg (by omega), if_neg (by simp)]
    simp only [Bool.false_eq_true, if_false]
    rw [wrapInt_of_range _ (by omega) (by omega)]
  | true =>
    simp only [if_true] at hlo hhi
    rw [if_neg (by simp), if_neg (by omega)]
    simp only [if_true]
    by_cases hb : decVal ds 0 = 9223372036854775808
    · rw [hb]
      decide
    · rw [wrapInt_of_range (decVal ds 0 : Int) (by omega) (by omega),
        wrapInt_of_range _ (by omega) (by omega)]

/-- When `ParseInt` ends without an error, the string is made of digits and denotes an
integer in the range of `int`. -/
theorem parseIntSigned_ok (neg : Bool) (ds : List Char)
    (hok : (parseIntSigned neg (utf8Bytes ds)).2 = none) :
    ds ≠ [] ∧ ds.all isDigitChar = true ∧
      minInt ≤ (if neg then -(decVal ds 0 : Int) else (decVal ds 0 : Int)) ∧
      (if neg then -(decVal ds 0 : Int) else (decVal ds 0 : Int)) ≤ maxInt := by
  have hmin : minInt = -9223372036854775808 := by norm_num [minInt, intSize]
  have hmax : maxInt = 9223372036854775807 := by norm_num [maxInt, intSize]
  have hcut : 2 ^ (intSize - 1) = 9223372036854775808 := by norm_num [intSize]
  rw [hmin, hmax]
  rcases hPU : ParseUint (utf8Bytes ds) with ⟨un, e⟩
  have herr := ParseUint_err (utf8Bytes ds)
  rw [hPU] at herr
  unfold parseIntSigned at hok
  rw [hPU] at hok
  cases e with
  | none =>
    obtain ⟨hne, hall, hv⟩ := ParseUint_ok ds (by rw [hPU])
    have hval := ParseUint_digits ds hne hall hv
    rw [hPU] at hval
    have hun : un = decVal ds 0 := congrArg Prod.fst hval
    subst hun
    simp only [hcut] at hok
    refine ⟨hne, hall, ?_⟩
    cases neg with
    | false =>
      simp only [Bool.false_eq_true, if_false]
      by_cases h1 : decVal ds 0 ≥ 9223372036854775808
      · rw [if_pos ⟨rfl, h1⟩] at hok
        simp at hok
      · omega
    | true =>
      simp only [if_true]
      by_cases h2 : decVal ds 0 > 9223372036854775808
      · rw [if_neg (by simp), if_pos ⟨rfl, h2⟩] at hok
        simp at hok
      · omega
  | some k =>
    cases k with
    | ErrSyntax => simp at hok
    | ErrRange =>
      have hun : un = 18446744073709551615 := herr.2 rfl
      subst hun
      simp only [hcut] at hok
      cases neg <;> simp at hok

/-- The value `ParseInt` returns with an error: 0 with a syntax error, the nearest bound
of `int` with a range error. -/
theorem parseIntSigned_err (neg : Bool) (bs : List Nat) :
    ((parseIntSigned neg bs).2 = some .ErrSyntax → (parseIntSigned neg bs).1 = 0) ∧
    ((parseIntSigned neg bs).2 = some .ErrRange →
      (parseIntSigned neg bs).1 = if neg then minInt else maxInt) := by
  have hmin : minInt = -9223372036854775808 := by norm_num [minInt, intSize]
  have hmax : maxInt = 9223372036854775807 := by norm_num [maxInt, intSize]
  have hcut : 2 ^ (intSize - 1) = 9223372036854775808 := by norm_num [intSize]
  have hw1 : wrapInt ((9223372036854775808 - 1 : Nat) : Int) = 9223372036854775807 := by
    decide
  have hw2 : wrapInt (-(wrapInt ((9223372036854775808 : Nat) : Int)))
      = -9223372036854775808 := by decide
  rw [hmin, hmax]
  rcases hPU : ParseUint bs with ⟨un, e⟩
  unfold parseIntSigned
  rw [hPU]
  cases e with
  | none =>
    simp only [hcut, hw1, hw2]
    cases neg
    · by_cases h1 : un ≥ 9223372036854775808 <;> simp [h1]
    · by_cases h2 : un > 9223372036854775808 <;> simp [h2]
  | some k =>
    cases k with
    | ErrSyntax => simp
    | ErrRange =>
      simp only [hcut, hw1, hw2]
      cases neg
      · by_cases h1 : un ≥ 9223372036854775808 <;> simp [h1]
      · by_cases h2 : un > 9223372036854775808 <;> simp [h2]

/-- On a string of digits whose value exceeds `uint64`, the loop reports a range error
with the value `maxVal`. -/
theorem parseUintLoop_overflow (cs : List Char) (n : Nat)
    (hall : cs.all isDigitChar = true) (hn : n ≤ 18446744073709551615)
    (hv : 18446744073709551615 < decVal cs n) :
    parseUintLoop 18446744073709551615 (utf8Bytes cs) n
      = (18446744073709551615, some .ErrRange) := by
  induction cs generalizing n with
  | nil => simp only [decVal] at hv; omega
  | cons c cs ih =>
    simp only [List.all_cons, Bool.and_eq_true] at hall
    have hc := hall.1
    simp only [isDigitChar, decide_eq_true_eq] at hc
    simp only [decVal] at hv
    rw [utf8Bytes_digit c cs hall.1]
    simp only [parseUintLoop, digitOf_digit c.toNat hc]
    have h1 : ¬ (c.toNat - 48 ≥ 10) := by omega
    rw [if_neg h1]
    by_cases h2 : n ≥ (2 ^ 64 - 1) / 10 + 1
    · rw [if_pos h2]
    · rw [if_neg h2]
      by_cases h3 : (n * 10 % 2 ^ 64 + (c.toNat - 48)) % 2 ^ 64 < n * 10 % 2 ^ 64 ∨
          (n * 10 % 2 ^ 64 + (c.toNat - 48)) % 2 ^ 64 > 18446744073709551615
      · simp only [h3, if_true]
      · simp only [h3, if_false]
        have h4 : (n * 10 % 2 ^ 64 + (c.toNat - 48)) % 2 ^ 64 = n * 10 + (c.toNat - 48) := by
          norm_num at h2 h3 ⊢
          omega
        rw [h4]
        have hn1 : n * 10 + (c.toNat - 48) ≤ 18446744073709551615 := by
          norm_num at h2 h3
          omega
        exact ih _ hall.2 hn1 hv

theorem ParseUint_overflow (ds : List Char) (hall : ds.all isDigitChar = true)
    (hv : 18446744073709551615 < decVal ds 0) :
    ParseUint (utf8Bytes ds) = (18446744073709551615, some .ErrRange) := by
  have hne : ds ≠ [] := by
    rintro rfl
    simp [decVal] at hv
  have hb : utf8Bytes ds ≠ [] := fun h => hne (utf8Bytes_eq_nil ds h)
  have hM : 2 ^ intSize - 1 = 18446744073709551615 := by norm_num [intSize]
  simp only [ParseUint, hb, if_false, hM]
  exact parseUintLoop_overflow ds 0 hall (by omega) hv

/-- A string of digits whose signed value lies outside the range of `int` is a range
error, returned with the bound of `int` on the side of the sign. -/
theorem parseIntSigned_out_of_range (neg : Bool) (ds : List Char) (hne : ds ≠ [])
    (hall : ds.all isDigitChar = true)
    (hout : ¬ (minInt ≤ (if neg then -(decVal ds 0 : Int) else (decVal ds 0 : Int)) ∧
      (if neg then -(decVal ds 0 : Int) else (decVal ds 0 : Int)) ≤ maxInt)) :
    parseIntSigned neg (utf8Bytes ds) = (if neg then minInt else maxInt, some .ErrRange) := by
  have hmin : minInt = -9223372036854775808 := by norm_num [minInt, intSize]
  have hmax : maxInt = 9223372036854775807 := by norm_num [maxInt, intSize]
  have hcut : 2 ^ (intSize - 1) = 9223372036854775808 := by norm_num [intSize]
  have hw1 : wrapInt ((9223372036854775808 - 1 : Nat) : Int) = 9223372036854775807 := by
    decide
  have hw2 : wrapInt (-(wrapInt ((9223372036854775808 : Nat) : Int)))
      = -9223372036854775808 := by decide
  rw [hmin, hmax] at hout ⊢
  have key : ∃ un e, ParseUint (utf8Bytes ds) = (un, e) ∧ e ≠ some .ErrSyntax ∧
      (neg = false → un ≥ 9223372036854775808) ∧
      (neg = true → un > 9223372036854775808) := by
    by_cases hv : decVal ds 0 ≤ 18446744073709551615
    · refine ⟨_, _, ParseUint_digits ds hne hall hv, by simp, ?_, ?_⟩
      · rintro rfl
        simp only [Bool.false_eq_true, if_false] at hout
        omega
      · rintro rfl
        simp only [if_true] at hout
        omega
    · refine ⟨_, _, ParseUint_overflow ds hall (by omega), by simp, ?_, ?_⟩ <;>
        intro _ <;> omega
  obtain ⟨un, e, hPU, he, h1, h2⟩ := key
  unfold parseIntSigned
  rw [hPU]
  simp only [hcut, hw1, hw2]
  cases neg with
  | false =>
    have := h1 rfl
    cases e with
    | none => simp [this]
    | some k =>
      cases k with
      | ErrSyntax => exact absurd rfl he
      | ErrRange => simp [this]
  | true =>
    have := h2 rfl
    cases e with
    | none => simp [this]
    | some k =>
      cases k with
      | ErrSyntax => exact absurd rfl he
      | ErrRange => simp [this]


theorem decVal_lt (cs : List Char) (n : Nat) (hall : cs.all isDigitChar = true) :
    decVal cs n < (n + 1) * 10 ^ cs.length := by
  induction cs generalizing n with
  | nil => simp [decVal]
  | cons c cs ih =>
    simp only [List.all_cons, Bool.and_eq_true] at hall
    have hc := hall.1
    simp only [isDigitChar, decide_eq_true_eq] at hc
    have h1 := ih (n * 10 + (c.toNat - 48)) hall.2
    have h2 : (n * 10 + (c.toNat - 48) + 1) * 10 ^ cs.length
        ≤ ((n + 1) * 10) * 10 ^ cs.length :=
      Nat.mul_le_mul_right _ (by omega)
    simp only [decVal, List.length_cons, pow_succ]
    calc decVal cs (n * 10 + (c.toNat - 48))
        < (n * 10 + (c.toNat - 48) + 1) * 10 ^ cs.length := h1
      _ ≤ ((n + 1) * 10) * 10 ^ cs.length := h2
      _ = (n + 1) * (10 ^ cs.length * 10) := by ring

/-- On a string of digits whose value fits `int`, the fast loop returns that value. -/
theorem atoiFastLoop_digits (cs : List Char) (n : Nat) (hall : cs.all isDigitChar = true)
    (hv : decVal cs n ≤ 9223372036854775807) :
    atoiFastLoop (utf8Bytes cs) (n : Int) = some (decVal cs n : Int) := by
  induction cs generalizing n with
  | nil => rfl
  | cons c cs ih =>
    simp only [List.all_cons, Bool.and_eq_true] at hall
    have hc := hall.1
    simp only [isDigitChar, decide_eq_true_eq] at hc
    have hge := decVal_ge cs (n * 10 + (c.toNat - 48))
    simp only [decVal] at hv ⊢
    rw [utf8Bytes_digit c cs hall.1]
    simp only [atoiFastLoop]
    have h0 : (c.toNat + 256 - 48) % 256 = c.toNat - 48 := by omega
    rw [h0, if_neg (by omega)]
    have hw : wrapInt ((n : Int) * 10 + ((c.toNat - 48 : Nat) : Int))
        = ((n * 10 + (c.toNat - 48) : Nat) : Int) := by
      rw [wrapInt_of_range _ (by omega) (by omega)]
      push_cast
      rfl
    rw [hw]
    exact ih _ hall.2 hv

/-- When the fast loop ends without an error, the string is made of digits. -/
theorem atoiFastLoop_ok (cs : List Char) (n v : Int)
    (hok : atoiFastLoop (utf8Bytes cs) n = some v) : cs.all isDigitChar = true := by
  induction cs generalizing n with
  | nil => rfl
  | cons c cs ih =>
    cases hd : isDigitChar c with
    | false =>
      obtain ⟨b, tl, hb, hnd, hlt, _⟩ := utf8Bytes_non_digit c cs hd
      rw [hb] at hok
      simp only [atoiFastLoop] at hok
      rw [if_pos (by omega)] at hok
      simp at hok
    | true =>
      have hc := hd
      simp only [isDigitChar, decide_eq_true_eq] at hc
      rw [utf8Bytes_digit c cs hd] at hok
      simp only [atoiFastLoop] at hok
      rw [if_neg (by omega)] at hok
      simp [List.all_cons, hd, ih _ hok]

/-- The fast path on a sign and at most 18 digits returns the integer they denote. -/
theorem atoiFast_digits (s : String) (neg : Bool) (ds : List Char) (hne : ds ≠ [])
    (hall : ds.all isDigitChar = true) (hlen : ds.length ≤ 18) :
    atoiFast s neg (utf8Bytes ds)
        = (if neg then -(decVal ds 0 : Int) else (decVal ds 0 : Int), none) ∧
      decVal ds 0 < 1000000000000000000 := by
  have hlt : decVal ds 0 < 1000000000000000000 := by
    have h := decVal_lt ds 0 hall
    have hp : 10 ^ ds.length ≤ 10 ^ 18 := Nat.pow_le_pow_right (by omega) hlen
    norm_num at hp
    omega
  refine ⟨?_, hlt⟩
  have hblen : ¬ (utf8Bytes ds).length < 1 := by
    rw [utf8Bytes_length_of_digits ds hall]
    cases ds with
    | nil => exact absurd rfl hne
    | cons c cs => simp
  have hloop := atoiFastLoop_digits ds 0 hall (by omega)
  simp only [Nat.cast_zero] at hloop
  simp only [atoiFast, hblen, if_false, hloop]
  cases neg with
  | false => simp
  | true =>
    simp only [if_true]
    rw [wrapInt_of_range _ (by omega) (by omega)]

/-- When the fast path ends without an error, the digit part is a non-empty string of
digits. -/
theorem atoiFast_ok (s : String) (neg : Bool) (ds : List Char)
    (hok : (atoiFast s neg (utf8Bytes ds)).2 = none) :
    ds ≠ [] ∧ ds.all isDigitChar = true := by
  unfold atoiFast at hok
  by_cases hl : (utf8Bytes ds).length < 1
  · rw [if_pos hl] at hok
    simp at hok
  · rw [if_neg hl] at hok
    constructor
    · rintro rfl
      exact hl (by simp [utf8Bytes])
    · cases hloop : atoiFastLoop (utf8Bytes ds) 0 with
      | none => rw [hloop] at hok; simp at hok
      | some v => exact atoiFastLoop_ok ds 0 v hloop

/-- An error of the fast path is a syntax error, returned with the value 0. -/
theorem atoiFast_err (s : String) (neg : Bool) (bs : List Nat) (e : NumError)
    (herr : (atoiFast s neg bs).2 = some e) :
    e = ⟨"Atoi", s, .ErrSyntax⟩ ∧ (atoiFast s neg bs).1 = 0 := by
  unfold atoiFast at herr ⊢
  by_cases hl : bs.length < 1
  · rw [if_pos hl] at herr ⊢
    simp only [Option.some.injEq] at herr
    exact ⟨herr.symm, rfl⟩
  · rw [if_neg hl] at herr ⊢
    cases hloop : atoiFastLoop bs 0 with
    | none =>
      rw [hloop] at herr
      simp only [Option.some.injEq] at herr
      exact ⟨herr.symm, rfl⟩
    | some v => rw [hloop] at herr; simp at herr


/-! ## `Atoi` against the decimal reading -/

/-- The first byte of the encoding decides the sign the way `splitSign` does on runes. -/
theorem sign_bytes (c : Char) (rest : List Char) :
    ∃ b0 tl, utf8Bytes (c :: rest) = b0 :: tl ∧
      decide (b0 = 45) = (splitSign (c :: rest)).1 ∧
      (if b0 = 45 ∨ b0 = 43 then tl else b0 :: tl) = utf8Bytes (splitSign (c :: rest)).2 ∧
      (if b0 = 43 ∨ b0 = 45 then tl else b0 :: tl) = utf8Bytes (splitSign (c :: rest)).2 := by
  by_cases hm : c = '-'
  · subst hm
    exact ⟨45, utf8Bytes rest, rfl, rfl, rfl, rfl⟩
  · by_cases hp : c = '+'
    · subst hp
      exact ⟨43, utf8Bytes rest, rfl, rfl, rfl, rfl⟩
    · have hsplit : splitSign (c :: rest) = (false, c :: rest) := by
        simp [splitSign, hm, hp]
      have key : ∃ b0 tl, utf8Bytes (c :: rest) = b0 :: tl ∧ b0 ≠ 45 ∧ b0 ≠ 43 := by
        cases hd : isDigitChar c with
        | true =>
          have hc := hd
          simp only [isDigitChar, decide_eq_true_eq] at hc
          exact ⟨c.toNat, _, utf8Bytes_digit c rest hd, by omega, by omega⟩
        | false =>
          obtain ⟨b, tl, hb, _, _, hor⟩ := utf8Bytes_non_digit c rest hd
          refine ⟨b, tl, hb, ?_, ?_⟩
          · rintro rfl
            rcases hor with h | h
            · exact hm (char_eq_of_toNat_eq (c := c) (d := '-') h.symm)
            · omega
          · rintro rfl
            rcases hor with h | h
            · exact hp (char_eq_of_toNat_eq (c := c) (d := '+') h.symm)
            · omega
      obtain ⟨b0, tl, hb, h45, h43⟩ := key
      refine ⟨b0, tl, hb, ?_, ?_, ?_⟩
      · simp [hsplit, h45]
      · simp [hsplit, h45, h43, hb]
      · simp [hsplit, h45, h43, hb]

/-- The function `Atoi` on a non-empty string, with the sign read off the runes. -/
theorem Atoi_cons (s : String) (c : Char) (rest : List Char) (hs : s.data = c :: rest) :
    Atoi s =
      if (utf8Bytes (c :: rest)).length < 19 then
        atoiFast s (splitSign (c :: rest)).1 (utf8Bytes (splitSign (c :: rest)).2)
      else
        match parseIntSigned (splitSign (c :: rest)).1 (utf8Bytes (splitSign (c :: rest)).2) with
        | (i64, some k) => (i64, some ⟨"Atoi", s, k⟩)
        | (i64, none) => (i64, none) := by
  obtain ⟨b0, tl, hb, hneg, hfast, hslow⟩ := sign_bytes c rest
  unfold Atoi
  simp only [bytes, hs, hb, List.length_cons] at *
  by_cases hlen : tl.length + 1 < 19
  · rw [if_pos ⟨by omega, hlen⟩, if_pos hlen, hneg, hfast]
  · rw [if_neg (fun h => hlen h.2), if_neg hlen]
    simp only [ParseInt, hneg, hslow]

theorem splitSign_length (c : Char) (rest : List Char) :
    (utf8Bytes (splitSign (c :: rest)).2).length ≤ (utf8Bytes (c :: rest)).length := by
  obtain ⟨b0, tl, hb, _, hfast, _⟩ := sign_bytes c rest
  rw [← hfast, hb]
  split_ifs <;> simp


theorem decimalInt_eq_some_iff (s : String) (v : Int) :
    decimalInt s = some v ↔
      (splitSign s.data).2 ≠ [] ∧ (splitSign s.data).2.all isDigitChar = true ∧
      minInt ≤ (if (splitSign s.data).1 then -(decVal (splitSign s.data).2 0 : Int)
        else (decVal (splitSign s.data).2 0 : Int)) ∧
      (if (splitSign s.data).1 then -(decVal (splitSign s.data).2 0 : Int)
        else (decVal (splitSign s.data).2 0 : Int)) ≤ maxInt ∧
      v = (if (splitSign s.data).1 then -(decVal (splitSign s.data).2 0 : Int)
        else (decVal (splitSign s.data).2 0 : Int)) := by
  unfold decimalInt
  dsimp only
  constructor
  · intro h
    by_cases h1 : (splitSign s.data).2 ≠ [] ∧ (splitSign s.data).2.all isDigitChar = true
    · rw [if_pos h1] at h
      by_cases h2 : minInt ≤ (if (splitSign s.data).1 then -(decVal (splitSign s.data).2 0 : Int)
            else (decVal (splitSign s.data).2 0 : Int)) ∧
          (if (splitSign s.data).1 then -(decVal (splitSign s.data).2 0 : Int)
            else (decVal (splitSign s.data).2 0 : Int)) ≤ maxInt
      · rw [if_pos h2] at h
        exact ⟨h1.1, h1.2, h2.1, h2.2, (Option.some.inj h).symm⟩
      · rw [if_neg h2] at h
        cases h
    · rw [if_neg h1] at h
      cases h
  · rintro ⟨h1, h2, h3, h4, h5⟩
    rw [if_pos ⟨h1, h2⟩, if_pos ⟨h3, h4⟩, h5]

theorem Atoi_nil (s : String) (hs : s.data = []) :
    Atoi s = (0, some ⟨"Atoi", s, .ErrSyntax⟩) := by
  simp [Atoi, bytes, hs, utf8Bytes, ParseInt]

/-- A valid base-10 integer in the range of `int` is parsed to the integer it denotes,
without an error. -/
theorem Atoi_of_decimalInt (s : String) (v : Int) (h : decimalInt s = some v) :
    Atoi s = (v, none) := by
  obtain ⟨hne, hall, hlo, hhi, hv⟩ := (decimalInt_eq_some_iff s v).1 h
  cases hs : s.data with
  | nil => rw [hs] at hne; exact absurd rfl hne
  | cons c rest =>
    rw [hs] at hne hall hlo hhi hv
    rw [Atoi_cons s c rest hs, hv]
    by_cases hlen : (utf8Bytes (c :: rest)).length < 19
    · rw [if_pos hlen]
      have hl := splitSign_length c rest
      rw [utf8Bytes_length_of_digits _ hall] at hl
      exact (atoiFast_digits s _ _ hne hall (by omega)).1
    · rw [if_neg hlen, parseIntSigned_digits _ _ hne hall hlo hhi]

/-- When `Atoi` returns no error, the string is a valid base-10 integer in the range of
`int` and the value returned is the integer it denotes. -/
theorem decimalInt_of_Atoi (s : String) (hok : (Atoi s).2 = none) :
    decimalInt s = some (Atoi s).1 := by
  cases hs : s.data with
  | nil => rw [Atoi_nil s hs] at hok; simp at hok
  | cons c rest =>
    have hmin : minInt = -9223372036854775808 := by norm_num [minInt, intSize]
    have hmax : maxInt = 9223372036854775807 := by norm_num [maxInt, intSize]
    rw [Atoi_cons s c rest hs] at hok
    have hdec : ∃ v, decimalInt s = some v := by
      by_cases hlen : (utf8Bytes (c :: rest)).length < 19
      · rw [if_pos hlen] at hok
        obtain ⟨hne, hall⟩ := atoiFast_ok s _ _ hok
        have hl := splitSign_length c rest
        rw [utf8Bytes_length_of_digits _ hall] at hl
        have hlt := (atoiFast_digits s (splitSign (c :: rest)).1 _ hne hall (by omega)).2
        refine ⟨_, (decimalInt_eq_some_iff s _).2 ⟨?_, ?_, ?_, ?_, rfl⟩⟩
        · rw [hs]; exact hne
        · rw [hs]; exact hall
        · rw [hs, hmin]
          cases (splitSign (c :: rest)).1 <;> simp <;> omega
        · rw [hs, hmax]
          cases (splitSign (c :: rest)).1 <;> simp <;> omega
      · rw [if_neg hlen] at hok
        have hok2 : (parseIntSigned (splitSign (c :: rest)).1
            (utf8Bytes (splitSign (c :: rest)).2)).2 = none := by
          rcases hP : parseIntSigned (splitSign (c :: rest)).1
              (utf8Bytes (splitSign (c :: rest)).2) with ⟨i64, e⟩
          rw [hP] at hok
          cases e with
          | none => rfl
          | some k => simp at hok
        obtain ⟨hne, hall, hlo, hhi⟩ := parseIntSigned_ok _ _ hok2
        refine ⟨_, (decimalInt_eq_some_iff s _).2 ⟨?_, ?_, ?_, ?_, rfl⟩⟩
        · rw [hs]; exact hne
        · rw [hs]; exact hall
        · rw [hs]; exact hlo
        · rw [hs]; exact hhi
    obtain ⟨v, hv⟩ := hdec
    rw [hv, Atoi_of_decimalInt s v hv]

/-- The error of `Atoi` names the function and the input; the value returned with it is
0 for a syntax error and the nearest bound of `int` for a range error. -/
theorem Atoi_error_value (s : String) (e : NumError) (herr : (Atoi s).2 = some e) :
    e.Func = "Atoi" ∧ e.Num = s ∧
      (e.Err = .ErrSyntax → (Atoi s).1 = 0) ∧
      (e.Err = .ErrRange →
        (Atoi s).1 = if (splitSign s.data).1 then minInt else maxInt) := by
  cases hs : s.data with
  | nil =>
    rw [Atoi_nil s hs] at herr ⊢
    simp only [Option.some.injEq] at herr
    subst herr
    simp
  | cons c rest =>
    rw [Atoi_cons s c rest hs] at herr ⊢
    by_cases hlen : (utf8Bytes (c :: rest)).length < 19
    · rw [if_pos hlen] at herr ⊢
      obtain ⟨he, h0⟩ := atoiFast_err s _ _ e herr
      subst he
      simp [h0]
    · rw [if_neg hlen] at herr ⊢
      have hP := parseIntSigned_err (splitSign (c :: rest)).1
        (utf8Bytes (splitSign (c :: rest)).2)
      rcases hQ : parseIntSigned (splitSign (c :: rest)).1
          (utf8Bytes (splitSign (c :: rest)).2) with ⟨i64, k⟩
      rw [hQ] at herr hP
      cases k with
      | none => simp at herr
      | some k =>
        simp only [Option.some.injEq] at herr
        subst herr
        refine ⟨rfl, rfl, ?_, ?_⟩
        · intro hk
          exact hP.1 (by simpa using hk)
        · intro hk
          exact hP.2 (by simpa using hk)

/-- A signed string of digits whose value lies outside the range of `int` makes `Atoi`
report a range error and return the bound of `int` on the side of the sign. -/
theorem Atoi_out_of_range (s : String) (hne : (splitSign s.data).2 ≠ [])
    (hall : (splitSign s.data).2.all isDigitChar = true)
    (hout : ¬ (minInt ≤ (if (splitSign s.data).1 then -(decVal (splitSign s.data).2 0 : Int)
        else (decVal (splitSign s.data).2 0 : Int)) ∧
      (if (splitSign s.data).1 then -(decVal (splitSign s.data).2 0 : Int)
        else (decVal (splitSign s.data).2 0 : Int)) ≤ maxInt)) :
    Atoi s = (if (splitSign s.data).1 then minInt else maxInt,
      some ⟨"Atoi", s, .ErrRange⟩) := by
  cases hs : s.data with
  | nil => rw [hs] at hne; exact absurd rfl hne
  | cons c rest =>
    rw [hs] at hne hall hout
    have hmin : minInt = -9223372036854775808 := by norm_num [minInt, intSize]
    have hmax : maxInt = 9223372036854775807 := by norm_num [maxInt, intSize]
    have hlen : ¬ (utf8Bytes (c :: rest)).length < 19 := by
      intro hlen
      have hl := splitSign_length c rest
      rw [utf8Bytes_length_of_digits _ hall] at hl
      have hlt := (atoiFast_digits s (splitSign (c :: rest)).1 _ hne hall (by omega)).2
      apply hout
      rw [hmin, hmax]
      cases (splitSign (c :: rest)).1 <;> simp <;> omega
    rw [Atoi_cons s c rest hs, if_neg hlen, parseIntSigned_out_of_range _ _ hne hall hout]

theorem decimalInt_formatInt (n : Int) (hlo : minInt ≤ n) (hhi : n ≤ maxInt) :
    decimalInt (formatInt n) = some n := by
  have hall := formatUint_all_digits n.natAbs
  have hne := formatUint_ne_nil n.natAbs
  have hval := decVal_formatUint n.natAbs
  have hsplit : splitSign (formatInt n).data = (decide (n < 0), formatUint n.natAbs) := by
    unfold formatInt
    by_cases hn : n < 0
    · simp [hn, splitSign]
    · simp only [hn, if_false, decide_False]
      cases hf : formatUint n.natAbs with
      | nil => exact absurd hf hne
      | cons c cs =>
        rw [hf] at hall
        simp only [List.all_cons, Bool.and_eq_true, isDigitChar, decide_eq_true_eq] at hall
        have h1 : c ≠ '-' := by
          rintro rfl
          have := hall.1
          simp at this
        have h2 : c ≠ '+' := by
          rintro rfl
          have := hall.1
          simp at this
        simp [splitSign, h1, h2]
  apply (decimalInt_eq_some_iff _ _).2
  rw [hsplit]
  simp only [hval]
  by_cases hn : n < 0
  · have hs : (-(n.natAbs : Int)) = n := by omega
    simp only [hn, decide_True, if_true, hs]
    exact ⟨hne, hall, hlo, hhi, trivial⟩
  · have hs : ((n.natAbs : Nat) : Int) = n := by omega
    simp only [hn, decide_False, Bool.false_eq_true, if_false, hs]
    exact ⟨hne, hall, hlo, hhi, trivial⟩

/-! ## `ToInt` -/

/-- C6 (as stated, refuted): on the digit string `9223372036854775808`, one above the
largest `int`, `Atoi` reports a range error and `ToInt` returns 9223372036854775807, not
0. -/
theorem ToInt_out_of_range_not_zero :
    (Atoi (Env.ToString ⟨.str "9223372036854775808"⟩)).2
      = some ⟨"Atoi", "9223372036854775808", .ErrRange⟩ ∧
    (Env.ToInt ⟨.str "9223372036854775808"⟩).2 = 9223372036854775807 ∧
    (Env.ToInt ⟨.str "9223372036854775808"⟩).2 ≠ 0 := by
  decide

/-- C6 (amended): when `Atoi` reports a syntax error on the string form, `ToInt` returns
0; when it reports a range error, `ToInt` returns the bound of `int` on the side of the
sign, `minInt` after a leading `-` and `maxInt` otherwise.  In particular a signed digit
string whose value lies outside the range of `int` is a range error and `ToInt` returns
the nearest bound: `minInt` for a value below the range, `maxInt` for a value above. -/
theorem ToInt_on_parse_error (e : Env) (err : NumError)
    (herr : (Atoi e.ToString).2 = some err) :
    (err.Err = .ErrSyntax → e.ToInt.2 = 0) ∧
    (err.Err = .ErrRange →
      e.ToInt.2 = if (splitSign e.ToString.data).1 then minInt else maxInt) ∧
    ((splitSign e.ToString.data).2 ≠ [] →
      (splitSign e.ToString.data).2.all isDigitChar = true →
        err.Err = .ErrRange ∧
        (numeralValue e.ToString < minInt → e.ToInt.2 = minInt) ∧
        (maxInt < numeralValue e.ToString → e.ToInt.2 = maxInt)) := by
  obtain ⟨_, _, h1, h2⟩ := Atoi_error_value e.ToString err herr
  refine ⟨h1, h2, ?_⟩
  intro hne hall
  have hout : ¬ (minInt ≤ numeralValue e.ToString ∧ numeralValue e.ToString ≤ maxInt) := by
    intro hin
    have hdec := (decimalInt_eq_some_iff e.ToString (numeralValue e.ToString)).2
      ⟨hne, hall, hin.1, hin.2, rfl⟩
    rw [Atoi_of_decimalInt _ _ hdec] at herr
    cases herr
  have hA := Atoi_out_of_range e.ToString hne hall hout
  have herr2 : err = ⟨"Atoi", e.ToString, .ErrRange⟩ := by
    rw [hA] at herr
    exact (Option.some.inj herr).symm
  have hval : e.ToInt.2 = if (splitSign e.ToString.data).1 then minInt else maxInt :=
    congrArg Prod.fst hA
  have hmin : minInt = -9223372036854775808 := by norm_num [minInt, intSize]
  have hmax : maxInt = 9223372036854775807 := by norm_num [maxInt, intSize]
  refine ⟨by rw [herr2], ?_, ?_⟩
  · intro hlt
    rw [hval]
    unfold numeralValue at hlt
    cases hs : (splitSign e.ToString.data).1 with
    | true => rfl
    | false =>
      rw [hs, hmin] at hlt
      simp only [Bool.false_eq_true, if_false] at hlt
      omega
  · intro hgt
    rw [hval]
    unfold numeralValue at hgt
    cases hs : (splitSign e.ToString.data).1 with
    | false => rfl
    | true =>
      rw [hs, hmax] at hgt
      simp only [if_true] at hgt
      omega

/-- C6 (amended) at the string forms `abc` and the empty string, which are syntax
errors, at a digit string below the smallest `int` and at one above the largest. -/
theorem ToInt_on_parse_error_witness :
    (Env.ToInt ⟨.str "abc"⟩).2 = 0 ∧ (Env.ToInt ⟨.str ""⟩).2 = 0 ∧
    (Env.ToInt ⟨.str "-9223372036854775809"⟩).2 = minInt ∧
    (Env.ToInt ⟨.str "99999999999999999999"⟩).2 = maxInt :=
  ⟨(ToInt_on_parse_error ⟨.str "abc"⟩ ⟨"Atoi", "abc", .ErrSyntax⟩ (by decide)).1 rfl,
   (ToInt_on_parse_error ⟨.str ""⟩ ⟨"Atoi", "", .ErrSyntax⟩ (by decide)).1 rfl,
   ((ToInt_on_parse_error ⟨.str "-9223372036854775809"⟩
      ⟨"Atoi", "-9223372036854775809", .ErrRange⟩ (by decide)).2.2
        (by decide) (by decide)).2.1 (by decide),
   ((ToInt_on_parse_error ⟨.str "99999999999999999999"⟩
      ⟨"Atoi", "99999999999999999999", .ErrRange⟩ (by decide)).2.2
        (by decide) (by decide)).2.2 (by decide)⟩

/-- C7: for every integer `n` in the range of `int`, `ToInt` of a wrapper holding the
base-10 rendering of `n` returns `n`, and so does `ToInt` of a wrapper holding `n`
itself. -/
theorem ToInt_inverts_formatInt (n : Int) (hlo : minInt ≤ n) (hhi : n ≤ maxInt) :
    (Env.ToInt ⟨.str (formatInt n)⟩).2 = n ∧ (Env.ToInt ⟨.int n⟩).2 = n := by
  have h := Atoi_of_decimalInt _ _ (decimalInt_formatInt n hlo hhi)
  constructor
  · simp only [Env.ToInt, Env.ToString, sprintV, h]
  · simp only [Env.ToInt, Env.ToString, sprintV, h]

/-- C7 at the smallest `int`, whose rendering is `-9223372036854775808`. -/
theorem ToInt_inverts_formatInt_witness :
    formatInt (-9223372036854775808) = "-9223372036854775808" ∧
    (Env.ToInt ⟨.str (formatInt (-9223372036854775808))⟩).2 = -9223372036854775808 ∧
    (Env.ToInt ⟨.int (-9223372036854775808)⟩).2 = -9223372036854775808 :=
  ⟨by decide, ToInt_inverts_formatInt (-9223372036854775808) (by decide) (by decide)⟩

/-- C9: `ToInt` calls the logger once, with the message quoting the string form; the
error passed is non-nil exactly when the string form is not a valid base-10 integer in
the range of `int`.  On a valid integer the call carries a nil error and nothing is
logged; otherwise the `Atoi` error for that string form is logged. -/
theorem ToInt_logs_iff_parse_fails (e : Env) :
    (∃ err, e.ToInt.1 = [⟨convertErrorMsg e.ToString, err⟩] ∧
      (err ≠ none ↔ decimalInt e.ToString = none)) ∧
    convertErrorMsg e.ToString = "Error on convert \"" ++ e.ToString ++ "\" to int" ∧
    (decimalInt e.ToString ≠ none → logged e.ToInt.1 = []) ∧
    (decimalInt e.ToString = none →
      ∃ ne, logged e.ToInt.1 = [(convertErrorMsg e.ToString, .num ne)] ∧
        ne.Func = "Atoi" ∧ ne.Num = e.ToString) := by
  have hiff : (Atoi e.ToString).2 = none ↔ decimalInt e.ToString ≠ none := by
    constructor
    · intro h
      rw [decimalInt_of_Atoi _ h]
      simp
    · intro h
      cases hd : decimalInt e.ToString with
      | none => exact absurd hd h
      | some v => rw [Atoi_of_decimalInt _ v hd]
  refine ⟨⟨(Atoi e.ToString).2.map GoError.num, rfl, ?_⟩, rfl, ?_, ?_⟩
  · cases ha : (Atoi e.ToString).2 with
    | none =>
      have := hiff.1 ha
      simp [this]
    | some ne =>
      have : decimalInt e.ToString = none := by
        by_contra hc
        rw [hiff.2 hc] at ha
        cases ha
      simp [this]
  · intro hd
    have ha := hiff.2 hd
    simp [Env.ToInt, logged, LogError, ha]
  · intro hd
    cases ha : (Atoi e.ToString).2 with
    | none => exact absurd hd (hiff.1 ha)
    | some ne =>
      obtain ⟨hf, hn, _, _⟩ := Atoi_error_value e.ToString ne ha
      exact ⟨ne, by simp [Env.ToInt, logged, LogError, ha], hf, hn⟩

/-- C9 at the string forms `abc`, where the conversion error is logged, and `42`, where
nothing is logged. -/
theorem ToInt_logs_iff_parse_fails_witness :
    (∃ ne, logged (Env.ToInt ⟨.str "abc"⟩).1
        = [(convertErrorMsg (Env.ToString ⟨.str "abc"⟩), .num ne)] ∧
      ne.Func = "Atoi" ∧ ne.Num = Env.ToString ⟨.str "abc"⟩) ∧
    logged (Env.ToInt ⟨.str "42"⟩).1 = [] :=
  ⟨(ToInt_logs_iff_parse_fails ⟨.str "abc"⟩).2.2.2 (by decide),
   (ToInt_logs_iff_parse_fails ⟨.str "42"⟩).2.2.1 (by decide)⟩


/-! ## Behaviour of the resolution beyond the stated contract -/

theorem GetEnvOrDefault_ne_empty (h : Host) (env defaultValue : String)
    (hd : defaultValue ≠ "") : GetEnvOrDefault h env defaultValue ≠ "" := by
  unfold GetEnvOrDefault
  cases h.LookupEnv env with
  | none => exact hd
  | some v =>
    by_cases hv : v = ""
    · simpa [hv] using hd
    · simp [hv]

theorem resolve_independent_of_error (h : Host) (err1 err2 : Option String) (data : Data)
    (env defaultValue : String) :
    (GetEnvFromAdminDatabaseOrDefault h ⟨err1, data⟩ env defaultValue).2
      = (GetEnvFromAdminDatabaseOrDefault h ⟨err2, data⟩ env defaultValue).2 := by
  rw [resolve_value h err1 data env defaultValue, resolve_value h err2 data env defaultValue]

/-- C11: a response that carries a non-nil error together with a record whose map holds
a non-empty value `v` under the lower-cased setting name makes
`GetEnvFromAdminDatabaseOrDefault` log the error and still return `v`; the value returned
is the same for every error state of the response, so the branch taken depends on
`GetData` and the map entry only. -/
theorem error_does_not_suppress_record (h : Host) (text : String)
    (cfg : HorusecAdminConfig) (env defaultValue v : String)
    (hv : cfg.ToMap.index (h.ToLower env) = v) (hne : v ≠ "") :
    GetEnvFromAdminDatabaseOrDefault h ⟨some text, .config cfg⟩ env defaultValue
      = ([⟨getEnvErrorMsg env, some (.storage text)⟩], .ret ⟨.str v⟩) ∧
    logged (GetEnvFromAdminDatabaseOrDefault h ⟨some text, .config cfg⟩ env defaultValue).1
      = [(getEnvErrorMsg env, .storage text)] ∧
    (∀ (err1 err2 : Option String) (data : Data),
      (GetEnvFromAdminDatabaseOrDefault h ⟨err1, data⟩ env defaultValue).2
        = (GetEnvFromAdminDatabaseOrDefault h ⟨err2, data⟩ env defaultValue).2) := by
  subst hv
  have h1 := resolve_calls h (some text) (.config cfg) env defaultValue
  have h2 := resolve_of_entry h (some text) cfg env defaultValue hne
  refine ⟨Prod.ext h1 h2, ?_, fun err1 err2 data =>
    resolve_independent_of_error h err1 err2 data env defaultValue⟩
  rw [h1]
  rfl

/-- C11 at a failed query that still carries the record `log_level = "debug"`, with
`LOG_LEVEL=warn` in the environment: the error is logged and the result is `debug`. -/
theorem error_does_not_suppress_record_witness :
    GetEnvFromAdminDatabaseOrDefault (hostOf [("LOG_LEVEL", "warn")])
        ⟨some "timeout", .config ⟨[("log_level", "debug")]⟩⟩ "LOG_LEVEL" "info"
      = ([⟨"Error on get env (LOG_LEVEL) on database", some (.storage "timeout")⟩],
          .ret ⟨.str "debug"⟩) :=
  ((error_does_not_suppress_record (hostOf [("LOG_LEVEL", "warn")]) "timeout"
      ⟨[("log_level", "debug")]⟩ "LOG_LEVEL" "info" "debug" (by decide) (by decide)).1).trans
    (by decide)

/-- C12: the fallback looks the setting name up in its original case.  With nil data, or
with a record that has no non-empty entry, the result is the environment-or-default
value of the name as given, whatever the lower-casing function is; so the names
`LOG_LEVEL` and `log_level`, which differ only in letter case, resolve differently when
the environment holds `LOG_LEVEL=warn` and storage has no override: one finds `warn`, the
other gets the default `info`. -/
theorem fallback_is_case_sensitive :
    (∀ (lookup : String → Option String) (lower1 lower2 : String → String)
        (err : Option String) (env defaultValue : String),
      (GetEnvFromAdminDatabaseOrDefault ⟨lookup, lower1⟩ ⟨err, .nil⟩ env defaultValue).2
          = .ret ⟨.str (GetEnvOrDefault ⟨lookup, lower2⟩ env defaultValue)⟩) ∧
    asciiToLower "LOG_LEVEL" = asciiToLower "log_level" ∧
    (GetEnvFromAdminDatabaseOrDefault (hostOf [("LOG_LEVEL", "warn")]) ⟨none, .nil⟩
        "LOG_LEVEL" "info").2 = .ret ⟨.str "warn"⟩ ∧
    (GetEnvFromAdminDatabaseOrDefault (hostOf [("LOG_LEVEL", "warn")]) ⟨none, .nil⟩
        "log_level" "info").2 = .ret ⟨.str "info"⟩ ∧
    (GetEnvFromAdminDatabaseOrDefault (hostOf [("LOG_LEVEL", "warn")])
        ⟨none, .config ⟨[("timeout", "30")]⟩⟩ "LOG_LEVEL" "info").2 = .ret ⟨.str "warn"⟩ ∧
    (GetEnvFromAdminDatabaseOrDefault (hostOf [("LOG_LEVEL", "warn")])
        ⟨none, .config ⟨[("timeout", "30")]⟩⟩ "log_level" "info").2 = .ret ⟨.str "info"⟩ := by
  refine ⟨?_, by decide, by decide, by decide, by decide, by decide⟩
  intro lookup lower1 lower2 err env defaultValue
  exact resolve_of_nil ⟨lookup, lower1⟩ err env defaultValue

/-- C13: with a non-empty default, for every storage response whose data is nil or a
record, with or without an error, and for every setting name,
`GetEnvFromAdminDatabaseOrDefault` returns a wrapper whose string form is non-empty; so
the string form is empty only if the default is empty. -/
theorem nonempty_default_gives_nonempty_value (h : Host) (err : Option String)
    (data : Data) (env defaultValue : String)
    (hdata : data = .nil ∨ ∃ cfg, data = .config cfg) (hd : defaultValue ≠ "") :
    ∃ e, (GetEnvFromAdminDatabaseOrDefault h ⟨err, data⟩ env defaultValue).2 = .ret e ∧
      e.ToString ≠ "" := by
  have hfb := GetEnvOrDefault_ne_empty h env defaultValue hd
  rcases hdata with rfl | ⟨cfg, rfl⟩
  · exact ⟨_, resolve_of_nil h err env defaultValue, hfb⟩
  · by_cases hv : cfg.ToMap.index (h.ToLower env) = ""
    · exact ⟨_, resolve_of_empty_entry h err cfg env defaultValue hv, hfb⟩
    · exact ⟨_, resolve_of_entry h err cfg env defaultValue hv, hv⟩

/-- C13 at a failed query without data, an environment that sets `TIMEOUT` to the empty
string and the default `10`. -/
theorem nonempty_default_gives_nonempty_value_witness :
    ∃ e, (GetEnvFromAdminDatabaseOrDefault (hostOf [("TIMEOUT", "")])
        ⟨some "timeout", .nil⟩ "TIMEOUT" "10").2 = .ret e ∧ e.ToString ≠ "" :=
  nonempty_default_gives_nonempty_value (hostOf [("TIMEOUT", "")]) (some "timeout") .nil
    "TIMEOUT" "10" (Or.inl rfl) (by decide)

end Horusec
